import Mathlib

/-!
Verification of the two scripts in this repository against their
natural-language specification.

Part 1 embeds `Post013 - Array to LaTeX Matrix/python numpy array to latex.py`:
the function `array_to_LaTeX(arr)` converts every element of a 2-D integer
numpy array to its decimal string, joins each row's elements with " & ",
joins the rows with " \\ " (a 4-character separator: space, two backslashes,
space), and wraps the result in "\begin{bmatrix} " and " \end{bmatrix}".

Part 2 embeds `Post017 - Hotellings T2 Example/hotelling.py`:
`TwoSampleT2Test(X, Y)` over exact rationals, with numpy's observable
behaviour made explicit: 1-D broadcasting in the mean difference, `np.cov`
squeezing a single-variable covariance to a 0-dimensional array, and
`np.linalg.inv` raising on 0-dimensional input and on singular matrices.
-/

/-! Decimal rendering of integers.

`arr.astype("str")` on an integer numpy array renders each entry in decimal
(`"122"`, `"-5"`).  We model that rendering explicitly.  `digitsRev f n`
returns the decimal digits of `n`, least significant first, using `f` as
structural fuel (fuel `n` always suffices since `n` has at most `n` digits). -/

def digitsRev : ℕ → ℕ → List ℕ
  | 0, _ => []
  | _ + 1, 0 => []
  | f + 1, n + 1 => ((n + 1) % 10) :: digitsRev f ((n + 1) / 10)

def digitChar (d : ℕ) : Char := Char.ofNat (48 + d)

def natChars (n : ℕ) : List Char :=
  if n = 0 then ['0'] else ((digitsRev n n).map digitChar).reverse

/-- Decimal string of an integer, as produced by `astype("str")` on an
integer array. -/
def numStr (z : ℤ) : String :=
  if z < 0 then String.mk ('-' :: natChars z.natAbs) else String.mk (natChars z.natAbs)

/-- Python's `sep.join(strings)`: empty for `[]`, no separator for a
singleton, separator between consecutive elements otherwise. -/
def joinS (sep : String) : List String → String
  | [] => ""
  | [s] => s
  | s :: t :: rest => s ++ sep ++ joinS sep (t :: rest)

/-- One row of the output: `" & ".join(arr[i,:])` after `astype("str")`. -/
def rowStr (row : List ℤ) : String := joinS " & " (row.map numStr)

/-- Embedding of `array_to_LaTeX` from the source: rows are the
`" & "`-joined element strings, joined by `" \\ "` and wrapped in the
`bmatrix` environment.  A 2-D integer numpy array is a rectangular
`List (List ℤ)` of its rows. -/
def array_to_LaTeX (arr : List (List ℤ)) : String :=
  "\\begin{bmatrix} " ++ joinS " \\\\ " (arr.map rowStr) ++ " \\end{bmatrix}"

/-- Column count of a matrix given as a list of rows (numpy's
`arr.shape[1]`; for a rectangular array every row has this length). -/
def ncolsZ (M : List (List ℤ)) : ℕ := (M.headD []).length

/-- Specification-side formatter, written from the spec's words with the
standard-library join: convert every element to its textual representation,
join each row's elements with " & ", join rows with " \\ ", wrap in
"\begin{bmatrix} " / " \end{bmatrix}". -/
def formatSpec (arr : List (List ℤ)) : String :=
  "\\begin{bmatrix} " ++
    String.intercalate " \\\\ " (arr.map fun row => String.intercalate " & " (row.map numStr)) ++
    " \\end{bmatrix}"

theorem intercalate_go_eq (sep : String) (as : List String) (a : String) (acc : String) :
    String.intercalate.go acc sep (a :: as) = acc ++ sep ++ joinS sep (a :: as) := by
  induction as generalizing a acc with
  | nil => rfl
  | cons t r ih =>
    show String.intercalate.go (acc ++ sep ++ a) sep (t :: r) = _
    rw [ih]
    cases r with
    | nil => simp [joinS, String.append_assoc]
    | cons u v => simp [joinS, String.append_assoc]

theorem joinS_eq_intercalate (sep : String) (l : List String) :
    joinS sep l = String.intercalate sep l := by
  cases l with
  | nil => rfl
  | cons a as =>
    cases as with
    | nil => rfl
    | cons t r =>
      show joinS sep (a :: t :: r) = String.intercalate.go a sep (t :: r)
      rw [intercalate_go_eq, joinS]

/-! Occurrence counting for the separator claims. -/

/-- Check whether `pat` is an initial segment of `s`. -/
def leadsWith : List Char → List Char → Bool
  | [], _ => true
  | _ :: _, [] => false
  | c :: cs, d :: ds => if c = d then leadsWith cs ds else false

/-- Number of positions of `s` at which the pattern `pat` occurs. -/
def countOccs (pat : List Char) : List Char → ℕ
  | [] => 0
  | c :: rest => (if leadsWith pat (c :: rest) = true then 1 else 0) + countOccs pat rest

/-- Character form of the row separator " \\ " used by the source. -/
def sepB : List Char := [' ', '\\', '\\', ' ']

/-- Character form of the element separator " & " used by the source. -/
def ampB : List Char := [' ', '&', ' ']

/-- Character-list form of python's `sep.join`. -/
def joinC (sep : List Char) : List (List Char) → List Char
  | [] => []
  | [r] => r
  | r :: t :: rest => r ++ sep ++ joinC sep (t :: rest)

theorem data_joinS (sep : String) (l : List String) :
    (joinS sep l).data = joinC sep.data (l.map String.data) := by
  induction l with
  | nil => rfl
  | cons a as ih =>
    cases as with
    | nil => rfl
    | cons t r =>
      show (a ++ sep ++ joinS sep (t :: r)).data = _
      rw [String.data_append, String.data_append, ih]
      rfl

theorem leadsWith_append_self (l t : List Char) : leadsWith l (l ++ t) = true := by
  induction l with
  | nil => rfl
  | cons c cs ih => simp [leadsWith, ih]

theorem leadsWith_head (p0 p1 : Char) (pr : List Char) (c : Char) (rest : List Char)
    (h : leadsWith (p0 :: p1 :: pr) (c :: rest) = true) : rest.head? = some p1 := by
  cases rest with
  | nil =>
    exfalso
    rw [leadsWith] at h
    split at h
    · rw [leadsWith] at h
      simp at h
    · simp at h
  | cons d ds =>
    rw [leadsWith] at h
    split at h
    · rw [leadsWith] at h
      split at h
      · rename_i hpd
        rw [hpd]
        rfl
      · simp at h
    · simp at h

theorem countOccs_cons_neg (pat : List Char) (c : Char) (rest : List Char)
    (h : leadsWith pat (c :: rest) = false) :
    countOccs pat (c :: rest) = countOccs pat rest := by
  rw [countOccs, h]
  simp

theorem countOccs_append_left (p0 p1 : Char) (pr : List Char) (r s : List Char)
    (h1 : p1 ∉ r) (h2 : s.head? ≠ some p1) :
    countOccs (p0 :: p1 :: pr) (r ++ s) = countOccs (p0 :: p1 :: pr) s := by
  induction r with
  | nil => rfl
  | cons c r2 ih =>
    have hL : leadsWith (p0 :: p1 :: pr) (c :: (r2 ++ s)) = false := by
      cases hb : leadsWith (p0 :: p1 :: pr) (c :: (r2 ++ s)) with
      | false => rfl
      | true =>
        exfalso
        have hh := leadsWith_head _ _ _ _ _ hb
        cases r2 with
        | nil =>
          simp only [List.nil_append] at hh
          exact h2 hh
        | cons d ds =>
          have hd : d = p1 := by simpa using hh
          exact h1 (by simp [hd])
    have step : countOccs (p0 :: p1 :: pr) ((c :: r2) ++ s)
        = countOccs (p0 :: p1 :: pr) (r2 ++ s) := countOccs_cons_neg _ _ _ hL
    rw [step]
    exact ih fun hm => h1 (List.mem_cons_of_mem _ hm)

theorem countOccs_sep_append (r s : List Char) (h1 : '\\' ∉ r) (h2 : s.head? ≠ some '\\') :
    countOccs sepB (r ++ s) = countOccs sepB s :=
  countOccs_append_left ' ' '\\' ['\\', ' '] r s h1 h2

theorem countOccs_amp_append (r s : List Char) (h1 : '&' ∉ r) (h2 : s.head? ≠ some '&') :
    countOccs ampB (r ++ s) = countOccs ampB s :=
  countOccs_append_left ' ' '&' [' '] r s h1 h2

theorem countOccs_sep_cons (t : List Char) (h : t.head? ≠ some '\\') :
    countOccs sepB (sepB ++ t) = 1 + countOccs sepB t := by
  have h0 : leadsWith sepB (sepB ++ t) = true := leadsWith_append_self sepB t
  have h1 : leadsWith sepB ('\\' :: '\\' :: ' ' :: t) = false := by
    rw [show sepB = ' ' :: '\\' :: '\\' :: [' '] from rfl, leadsWith, if_neg (by decide)]
  have h2 : leadsWith sepB ('\\' :: ' ' :: t) = false := by
    rw [show sepB = ' ' :: '\\' :: '\\' :: [' '] from rfl, leadsWith, if_neg (by decide)]
  have h3 : leadsWith sepB (' ' :: t) = false := by
    rw [show sepB = ' ' :: '\\' :: '\\' :: [' '] from rfl, leadsWith, if_pos rfl]
    cases t with
    | nil => rfl
    | cons d ds =>
      rw [leadsWith, if_neg]
      intro hd
      exact h (by rw [← hd]; rfl)
  have e0 : sepB ++ t = ' ' :: '\\' :: '\\' :: ' ' :: t := rfl
  rw [e0] at h0
  rw [e0, countOccs, h0, countOccs_cons_neg _ _ _ h1, countOccs_cons_neg _ _ _ h2,
    countOccs_cons_neg _ _ _ h3]
  simp

theorem countOccs_amp_cons (t : List Char) (h : t.head? ≠ some '&') :
    countOccs ampB (ampB ++ t) = 1 + countOccs ampB t := by
  have h0 : leadsWith ampB (ampB ++ t) = true := leadsWith_append_self ampB t
  have h1 : leadsWith ampB ('&' :: ' ' :: t) = false := by
    rw [show ampB = ' ' :: '&' :: [' '] from rfl, leadsWith, if_neg (by decide)]
  have h3 : leadsWith ampB (' ' :: t) = false := by
    rw [show ampB = ' ' :: '&' :: [' '] from rfl, leadsWith, if_pos rfl]
    cases t with
    | nil => rfl
    | cons d ds =>
      rw [leadsWith, if_neg]
      intro hd
      exact h (by rw [← hd]; rfl)
  have e0 : ampB ++ t = ' ' :: '&' :: ' ' :: t := rfl
  rw [e0] at h0
  rw [e0, countOccs, h0, countOccs_cons_neg _ _ _ h1, countOccs_cons_neg _ _ _ h3]
  simp

theorem joinC_append_head_ne (ch : Char) (sep : List Char) (rows : List (List Char))
    (s : List Char) (hsep0 : sep ≠ []) (hsep : sep.head? ≠ some ch)
    (hrows : ∀ r ∈ rows, ch ∉ r) (hs : s.head? ≠ some ch) :
    (joinC sep rows ++ s).head? ≠ some ch := by
  cases rows with
  | nil =>
    rw [show joinC sep ([] : List (List Char)) = [] from rfl, List.nil_append]
    exact hs
  | cons r rest =>
    cases rest with
    | nil =>
      rw [show joinC sep [r] = r from rfl]
      cases r with
      | nil =>
        rw [List.nil_append]
        exact hs
      | cons c cs =>
        rw [List.cons_append]
        intro hc
        have hceq : c = ch := by simpa using hc
        exact hrows (c :: cs) (by simp) (by simp [hceq])
    | cons t r2 =>
      rw [show joinC sep (r :: t :: r2) = r ++ sep ++ joinC sep (t :: r2) from rfl]
      cases r with
      | nil =>
        cases sep with
        | nil => exact absurd rfl hsep0
        | cons s0 ss =>
          rw [List.nil_append, List.cons_append, List.cons_append]
          intro hc
          have hceq : s0 = ch := by simpa using hc
          exact hsep (by simp [hceq])
      | cons c cs =>
        rw [List.cons_append, List.cons_append, List.cons_append]
        intro hc
        have hceq : c = ch := by simpa using hc
        exact hrows (c :: cs) (by simp) (by simp [hceq])

theorem mem_joinC (sep : List Char) (rows : List (List Char)) (c : Char)
    (h : c ∈ joinC sep rows) : c ∈ sep ∨ ∃ r ∈ rows, c ∈ r := by
  induction rows with
  | nil => simp [joinC] at h
  | cons r rest ih =>
    cases rest with
    | nil =>
      right
      exact ⟨r, by simp, by simpa [joinC] using h⟩
    | cons t r2 =>
      rw [joinC] at h
      rcases List.mem_append.mp h with h1 | h1
      · rcases List.mem_append.mp h1 with h2 | h2
        · exact Or.inr ⟨r, by simp, h2⟩
        · exact Or.inl h2
      · rcases ih h1 with h2 | ⟨r3, hr3, hc3⟩
        · exact Or.inl h2
        · exact Or.inr ⟨r3, List.mem_cons_of_mem _ hr3, hc3⟩

theorem digitsRev_lt (f n : ℕ) (d : ℕ) (h : d ∈ digitsRev f n) : d < 10 := by
  induction f generalizing n with
  | zero => simp [digitsRev] at h
  | succ f2 ih =>
    cases n with
    | zero => simp [digitsRev] at h
    | succ m =>
      rw [digitsRev] at h
      rcases List.mem_cons.mp h with h1 | h1
      · rw [h1]; exact Nat.mod_lt _ (by omega)
      · exact ih _ h1

theorem digitChar_good (d : ℕ) (hd : d < 10) :
    digitChar d ≠ '\\' ∧ digitChar d ≠ '&' := by
  interval_cases d <;> exact (by decide)

theorem mem_numStr (z : ℤ) (c : Char) (h : c ∈ (numStr z).data) :
    c ≠ '\\' ∧ c ≠ '&' := by
  have hcases : c = '-' ∨ c ∈ natChars z.natAbs := by
    rw [numStr] at h
    split at h
    · rcases List.mem_cons.mp h with h1 | h1
      · exact Or.inl h1
      · exact Or.inr h1
    · exact Or.inr h
  rcases hcases with h1 | h1
  · rw [h1]; exact ⟨by decide, by decide⟩
  · rw [natChars] at h1
    split at h1
    · have : c = '0' := by simpa using h1
      rw [this]; exact ⟨by decide, by decide⟩
    · rw [List.mem_reverse] at h1
      rcases List.mem_map.mp h1 with ⟨d, hd, hdc⟩
      rw [← hdc]
      exact digitChar_good d (digitsRev_lt _ _ _ hd)

theorem rowStr_no_bs (row : List ℤ) : '\\' ∉ (rowStr row).data := by
  intro h
  rw [rowStr, data_joinS] at h
  have hamp : " & ".data = ampB := rfl
  rw [hamp] at h
  rcases mem_joinC _ _ _ h with h1 | ⟨r, hr, hc⟩
  · simp [ampB] at h1
  · rcases List.mem_map.mp hr with ⟨s2, hs2, hs2e⟩
    rcases List.mem_map.mp hs2 with ⟨z, _, hz⟩
    rw [← hs2e, ← hz] at hc
    exact (mem_numStr z '\\' hc).1 rfl

theorem countOccs_sep_joinC (rows : List (List Char)) (s : List Char)
    (hrows : ∀ r ∈ rows, '\\' ∉ r) (hs : s.head? ≠ some '\\') :
    countOccs sepB (joinC sepB rows ++ s) = (rows.length - 1) + countOccs sepB s := by
  revert hrows
  induction rows with
  | nil =>
    intro hrows
    simp [joinC]
  | cons r rest ih =>
    intro hrows
    cases rest with
    | nil =>
      rw [show joinC sepB [r] = r from rfl]
      rw [countOccs_sep_append r s (hrows r (by simp)) hs]
      simp
    | cons t r2 =>
      rw [show joinC sepB (r :: t :: r2) = r ++ sepB ++ joinC sepB (t :: r2) from rfl]
      rw [List.append_assoc, List.append_assoc]
      have hrest : ∀ r3 ∈ t :: r2, '\\' ∉ r3 := fun r3 h3 => hrows r3 (List.mem_cons_of_mem _ h3)
      have hmid : (joinC sepB (t :: r2) ++ s).head? ≠ some '\\' :=
        joinC_append_head_ne '\\' sepB (t :: r2) s (by decide) (by decide) hrest hs
      have hsep2 : (sepB ++ (joinC sepB (t :: r2) ++ s)).head? ≠ some '\\' := by
        rw [show sepB ++ (joinC sepB (t :: r2) ++ s)
            = ' ' :: ('\\' :: '\\' :: ' ' :: (joinC sepB (t :: r2) ++ s)) from rfl]
        intro hcontra
        exact absurd (show some ' ' = some '\\' from hcontra) (by decide)
      rw [countOccs_sep_append r _ (hrows r (by simp)) hsep2]
      rw [countOccs_sep_cons _ hmid]
      rw [ih hrest]
      simp only [List.length_cons]
      omega

theorem countOccs_amp_joinC (rows : List (List Char)) (s : List Char)
    (hrows : ∀ r ∈ rows, '&' ∉ r) (hs : s.head? ≠ some '&') :
    countOccs ampB (joinC ampB rows ++ s) = (rows.length - 1) + countOccs ampB s := by
  revert hrows
  induction rows with
  | nil =>
    intro hrows
    simp [joinC]
  | cons r rest ih =>
    intro hrows
    cases rest with
    | nil =>
      rw [show joinC ampB [r] = r from rfl]
      rw [countOccs_amp_append r s (hrows r (by simp)) hs]
      simp
    | cons t r2 =>
      rw [show joinC ampB (r :: t :: r2) = r ++ ampB ++ joinC ampB (t :: r2) from rfl]
      rw [List.append_assoc, List.append_assoc]
      have hrest : ∀ r3 ∈ t :: r2, '&' ∉ r3 := fun r3 h3 => hrows r3 (List.mem_cons_of_mem _ h3)
      have hmid : (joinC ampB (t :: r2) ++ s).head? ≠ some '&' :=
        joinC_append_head_ne '&' ampB (t :: r2) s (by decide) (by decide) hrest hs
      have hsep2 : (ampB ++ (joinC ampB (t :: r2) ++ s)).head? ≠ some '&' := by
        rw [show ampB ++ (joinC ampB (t :: r2) ++ s)
            = ' ' :: ('&' :: ' ' :: (joinC ampB (t :: r2) ++ s)) from rfl]
        intro hcontra
        exact absurd (show some ' ' = some '&' from hcontra) (by decide)
      rw [countOccs_amp_append r _ (hrows r (by simp)) hsep2]
      rw [countOccs_amp_cons _ hmid]
      rw [ih hrest]
      simp only [List.length_cons]
      omega

theorem countOccs_amp_row (row : List ℤ) :
    countOccs ampB (rowStr row).data = row.length - 1 := by
  rw [rowStr, data_joinS, show (" & ").data = ampB from rfl]
  have hrows : ∀ r ∈ (row.map numStr).map String.data, '&' ∉ r := by
    intro r hr hmem
    rcases List.mem_map.mp hr with ⟨s2, hs2, hs2e⟩
    rcases List.mem_map.mp hs2 with ⟨z, _, hz⟩
    rw [← hs2e, ← hz] at hmem
    exact (mem_numStr z '&' hmem).2 rfl
  have h := countOccs_amp_joinC ((row.map numStr).map String.data) [] hrows (by simp)
  rw [List.append_nil] at h
  rw [h, show countOccs ampB [] = 0 from rfl]
  simp

theorem countOccs_sep_full (M : List (List ℤ)) :
    countOccs sepB (array_to_LaTeX M).data = M.length - 1 := by
  have hrows : ∀ r ∈ (M.map rowStr).map String.data, '\\' ∉ r := by
    intro r hr hmem
    rcases List.mem_map.mp hr with ⟨s2, hs2, hs2e⟩
    rcases List.mem_map.mp hs2 with ⟨row, _, hrow⟩
    rw [← hs2e, ← hrow] at hmem
    exact rowStr_no_bs row hmem
  rw [array_to_LaTeX, String.data_append, String.data_append]
  rw [data_joinS, show (" \\\\ ").data = sepB from rfl]
  rw [List.append_assoc]
  rw [show ("\\begin{bmatrix} ").data = '\\' :: ("begin{bmatrix} ").data from rfl]
  rw [List.cons_append]
  rw [countOccs_cons_neg _ _ _
    (by rw [show sepB = ' ' :: '\\' :: '\\' :: [' '] from rfl, leadsWith, if_neg (by decide)])]
  have htail : ((joinC sepB ((M.map rowStr).map String.data)) ++ (" \\end{bmatrix}").data).head?
      ≠ some '\\' :=
    joinC_append_head_ne '\\' sepB _ _ (by decide) (by decide) hrows (by decide)
  rw [countOccs_sep_append (("begin{bmatrix} ").data) _ (by decide) htail]
  rw [countOccs_sep_joinC _ _ hrows (by decide)]
  rw [show countOccs sepB ((" \\end{bmatrix}").data) = 0 from by decide]
  simp

/-- C8: for every rectangular integer matrix with `r` rows and `c` columns, the
rendered LaTeX string contains exactly `r - 1` occurrences of the row
separator `" \\ "`, and each row segment contains exactly `c - 1` occurrences
of the element separator `" & "`. -/
theorem C8_separator_counts (M : List (List ℤ)) (r c : ℕ) (hr : M.length = r)
    (hc : ∀ row ∈ M, row.length = c) :
    countOccs sepB (array_to_LaTeX M).data = r - 1 ∧
      ∀ row ∈ M, countOccs ampB (rowStr row).data = c - 1 := by
  constructor
  · rw [countOccs_sep_full, hr]
  · intro row hrow
    rw [countOccs_amp_row, hc row hrow]

/-- C8 witness: the demonstration matrix from the source has 3 rows and 3
columns; its rendering contains 2 row separators and each row 2 element
separators. -/
theorem C8_witness :
    ([[3,4,5],[6,7,9],[4,5,122]] : List (List ℤ)).length = 3 ∧
      (∀ row ∈ ([[3,4,5],[6,7,9],[4,5,122]] : List (List ℤ)), row.length = 3) ∧
      (countOccs sepB (array_to_LaTeX [[3,4,5],[6,7,9],[4,5,122]]).data = 3 - 1 ∧
        ∀ row ∈ ([[3,4,5],[6,7,9],[4,5,122]] : List (List ℤ)),
          countOccs ampB (rowStr row).data = 3 - 1) :=
  ⟨rfl, by decide, C8_separator_counts [[3,4,5],[6,7,9],[4,5,122]] 3 3 rfl (by decide)⟩

/-- C2: on every non-empty rectangular integer matrix the formatter returns
exactly the bmatrix-wrapped string of rows joined by " \\ " with elements
joined by " & " (stated via the independently defined `formatSpec`), and on
the demonstration matrix it returns the exact string from the spec. -/
theorem C2_format_exact (M : List (List ℤ)) (hne : M ≠ [])
    (hrect : ∀ row ∈ M, row.length = ncolsZ M) :
    array_to_LaTeX M = formatSpec M ∧
      array_to_LaTeX [[3,4,5],[6,7,9],[4,5,122]] =
        "\\begin{bmatrix} 3 & 4 & 5 \\\\ 6 & 7 & 9 \\\\ 4 & 5 & 122 \\end{bmatrix}" := by
  constructor
  · rw [array_to_LaTeX, formatSpec, joinS_eq_intercalate]
    have hf : rowStr = fun row => String.intercalate " & " (List.map numStr row) :=
      funext fun row => by rw [rowStr, joinS_eq_intercalate]
    rw [hf]
  · decide

/-- C2 witness: instantiation at the demonstration matrix. -/
theorem C2_witness :
    (([[3,4,5],[6,7,9],[4,5,122]] : List (List ℤ)) ≠ [] ∧
        ∀ row ∈ ([[3,4,5],[6,7,9],[4,5,122]] : List (List ℤ)),
          row.length = ncolsZ [[3,4,5],[6,7,9],[4,5,122]]) ∧
      (array_to_LaTeX [[3,4,5],[6,7,9],[4,5,122]] = formatSpec [[3,4,5],[6,7,9],[4,5,122]] ∧
        array_to_LaTeX [[3,4,5],[6,7,9],[4,5,122]] =
          "\\begin{bmatrix} 3 & 4 & 5 \\\\ 6 & 7 & 9 \\\\ 4 & 5 & 122 \\end{bmatrix}") :=
  ⟨⟨by decide, by decide⟩, C2_format_exact [[3,4,5],[6,7,9],[4,5,122]] (by decide) (by decide)⟩

/-- C4 counterexample: the formatter applied to the empty matrix returns the
degenerate string "\begin{bmatrix}  \end{bmatrix}" instead of failing, so
the claim that empty input fails with InvalidInput is false on the code. -/
theorem C4_cx : array_to_LaTeX [] = "\\begin{bmatrix}  \\end{bmatrix}" := by decide

/-- C4 (amended): the formatter performs no input validation: an empty matrix
yields the degenerate bmatrix string, and a matrix of empty rows yields a
separator-only body; non-rectangular inputs are not representable as 2-D
numpy arrays. -/
theorem C4_amended :
    array_to_LaTeX [] = "\\begin{bmatrix}  \\end{bmatrix}" ∧
      array_to_LaTeX [[],[],[]] = "\\begin{bmatrix}  \\\\  \\\\  \\end{bmatrix}" :=
  ⟨by decide, by decide⟩

/-! Embedding of `hotelling.py`.

`TwoSampleT2Test(X, Y)` is modelled over exact rationals.  A 2-D numpy array
is a rectangular `List (List ℚ)` of its rows.  The numpy behaviour relevant
to this function is made explicit:

* `np.mean(-, axis=0)` produces the 1-D list of column means;
* subtraction of two 1-D arrays broadcasts when either has length 1 and
  raises a ValueError (`broadcastMismatch`) otherwise;
* `np.cov(-, rowvar=False)` ends in `c.squeeze()`, so a single-variable
  covariance is returned as a 0-dimensional array (`NDArr.scalar`); when the
  input has a single row numpy skips the transpose and treats that row's
  entries as the observations of one variable;
* `+` and `*` broadcast a 0-dimensional array against a 2-D one;
* `np.linalg.inv` raises a LinAlgError on input that is not 2-dimensional
  (`linAlgNot2D`) and on a singular matrix (`singularMatrix`);
* float division by zero would produce non-finite values; the embedding
  makes those events explicit as a `divByZero` error so that their absence
  can be stated (the divisions inside `np.mean` and `np.cov` are total here,
  as no claim concerns them, and all claims assume at least 2 rows).

The F-distribution CDF used for the p-value is an external scipy routine; it
enters the embedding as an abstract parameter `cdf df1 df2 x`. -/

abbrev Mat := List (List ℚ)

def nrows (M : Mat) : ℕ := M.length

def ncols (M : Mat) : ℕ := (M.headD []).length

/-- Column `j` of a matrix, as the list of the rows' `j`-th entries. -/
def colL (M : Mat) (j : ℕ) : List ℚ := M.map fun r => r.getD j 0

/-- Mean of a list of rationals (`np.mean` of a 1-D array). -/
def meanL (v : List ℚ) : ℚ := v.sum / (v.length : ℚ)

/-- `np.mean(M, axis=0)`: the 1-D array of column means. -/
def mean0 (M : Mat) : List ℚ := (List.range (ncols M)).map fun j => meanL (colL M j)

def dotL (a b : List ℚ) : ℚ := (List.zipWith (· * ·) a b).sum

/-- Centre a list at its mean (numpy's `X - avg` inside `np.cov`). -/
def centerL (v : List ℚ) : List ℚ := v.map fun x => x - meanL v

/-- Covariance matrix of the rows of `V` (variables as rows, observations as
columns), with the unbiased divisor `obs - 1`: the core of `np.cov`. -/
def covVV (V : Mat) : Mat :=
  V.map fun vi => V.map fun vj => dotL (centerL vi) (centerL vj) / ((ncols V : ℚ) - 1)

/-- Transpose of a rectangular matrix. -/
def transposeM (M : Mat) : Mat := (List.range (ncols M)).map (colL M)

/-- Result of a numpy expression that is either a 0-dimensional array
(`squeeze`d scalar) or a 2-D matrix. -/
inductive NDArr where
  | scalar : ℚ → NDArr
  | mat : Mat → NDArr

/-- `np.cov(M, rowvar=False)`: transpose unless the input has exactly one
row, take the row-variable covariance, and `squeeze` a 1x1 result down to a
0-dimensional array. -/
def npCov (M : Mat) : NDArr :=
  let V := if nrows M = 1 then M else transposeM M
  let C := covVV V
  if C.length = 1 then NDArr.scalar ((C.headD []).headD 0) else NDArr.mat C

/-- Failure modes observable from `TwoSampleT2Test`. -/
inductive NpErr where
  | broadcastMismatch
  | linAlgNot2D
  | singularMatrix
  | divByZero
  | shapeMismatch
deriving DecidableEq

/-- Subtraction of two 1-D arrays with numpy's broadcasting: equal lengths
subtract elementwise, a length-1 operand broadcasts, anything else raises. -/
def sub1d (a b : List ℚ) : Except NpErr (List ℚ) :=
  if a.length = b.length then .ok (List.zipWith (· - ·) a b)
  else if a.length = 1 then .ok (b.map fun y => a.headD 0 - y)
  else if b.length = 1 then .ok (a.map fun x => x - b.headD 0)
  else .error .broadcastMismatch

/-- Multiplication of an array by a scalar. -/
def smulN (c : ℚ) : NDArr → NDArr
  | .scalar x => .scalar (c * x)
  | .mat m => .mat (m.map fun row => row.map fun x => c * x)

/-- Addition of two arrays: a 0-dimensional operand broadcasts over a 2-D
one; two 2-D operands must agree in shape (the shapes reachable from
`TwoSampleT2Test` never mix differently-sized matrices). -/
def addN : NDArr → NDArr → Except NpErr NDArr
  | .scalar x, .scalar y => .ok (.scalar (x + y))
  | .scalar x, .mat m => .ok (.mat (m.map fun row => row.map fun y => x + y))
  | .mat m, .scalar y => .ok (.mat (m.map fun row => row.map fun x => x + y))
  | .mat a, .mat b =>
      if a.length = b.length ∧ ncols a = ncols b then
        .ok (.mat (List.zipWith (List.zipWith (· + ·)) a b))
      else .error .broadcastMismatch

/-- Scalar division with the zero divisor made explicit. -/
def divQ (a b : ℚ) : Except NpErr ℚ := if b = 0 then .error .divByZero else .ok (a / b)

/-- Division of an array by a scalar, elementwise. -/
def divN (A : NDArr) (d : ℚ) : Except NpErr NDArr :=
  if d = 0 then .error .divByZero else .ok (smulN d⁻¹ A)

/-- View a square list-matrix as a Mathlib matrix. -/
def toSq (k : ℕ) (m : Mat) : Matrix (Fin k) (Fin k) ℚ :=
  Matrix.of fun i j => (m.getD i []).getD j 0

/-- View a Mathlib matrix as a list-matrix. -/
def ofSq (k : ℕ) (A : Matrix (Fin k) (Fin k) ℚ) : Mat :=
  List.ofFn fun i : Fin k => List.ofFn fun j : Fin k => A i j

/-- Explicit inverse of a square rational matrix (defined whenever the
determinant is nonzero; see `qInv_mul_self` and `mul_qInv_self`). -/
def qInv (k : ℕ) (A : Matrix (Fin k) (Fin k) ℚ) : Matrix (Fin k) (Fin k) ℚ :=
  A.det⁻¹ • A.adjugate

/-- `np.linalg.inv`: raises on a 0-dimensional input and on a singular
matrix; in exact arithmetic a square matrix is singular exactly when its
determinant vanishes. (A non-square list of rows cannot arise from a numpy
array; it is mapped to `shapeMismatch`.) -/
def npInv : NDArr → Except NpErr Mat
  | .scalar _ => .error .linAlgNot2D
  | .mat m =>
      if ncols m = m.length then
        if (toSq m.length m).det = 0 then .error .singularMatrix
        else .ok (ofSq m.length (qInv m.length (toSq m.length m)))
      else .error .shapeMismatch

/-- `np.matmul` of a 1-D array with a 2-D array. -/
def vecMatE (v : List ℚ) (m : Mat) : Except NpErr (List ℚ) :=
  if v.length = m.length then .ok ((List.range (ncols m)).map fun j => dotL v (colL m j))
  else .error .shapeMismatch

/-- `np.matmul` of two 1-D arrays (an inner product). -/
def dotE (a b : List ℚ) : Except NpErr ℚ :=
  if a.length = b.length then .ok (dotL a b) else .error .shapeMismatch

/-- Returned statistic and p-value, together with the degrees of freedom that
the function interpolates into its printed summary. -/
structure T2Result where
  statistic : ℚ
  p_value : ℚ
  df1 : ℤ
  df2 : ℤ
deriving DecidableEq

/-- Embedding of `TwoSampleT2Test` from the source, line by line:
`nx, p = X.shape`; `ny, _ = Y.shape`; `delta = np.mean(X,0) - np.mean(Y,0)`;
`Sx`, `Sy` via `np.cov(-, rowvar=False)`;
`S_pooled = ((nx-1)*Sx + (ny-1)*Sy)/(nx+ny-2)`;
`t_squared = (nx*ny)/(nx+ny) * delta^T S_pooled^{-1} delta` (the scalar
factor is evaluated before the matrix inverse, preserving python's
left-to-right order); `statistic = t_squared * (nx+ny-p-1)/(p*(nx+ny-2))`;
`p_value = 1 - F.cdf(statistic)` with `F = f(p, nx+ny-p-1)`. -/
def TwoSampleT2Test (cdf : ℤ → ℤ → ℚ → ℚ) (X Y : Mat) : Except NpErr T2Result := do
  let nx := nrows X
  let p := ncols X
  let ny := nrows Y
  let delta ← sub1d (mean0 X) (mean0 Y)
  let Sx := npCov X
  let Sy := npCov Y
  let Spre ← addN (smulN ((nx : ℚ) - 1) Sx) (smulN ((ny : ℚ) - 1) Sy)
  let S_pooled ← divN Spre ((nx : ℚ) + (ny : ℚ) - 2)
  let scale ← divQ ((nx : ℚ) * (ny : ℚ)) ((nx : ℚ) + (ny : ℚ))
  let Sinv ← npInv S_pooled
  let w ← vecMatE delta Sinv
  let q ← dotE w delta
  let t_squared := scale * q
  let statistic ← divQ (t_squared * ((nx : ℚ) + (ny : ℚ) - (p : ℚ) - 1))
    ((p : ℚ) * ((nx : ℚ) + (ny : ℚ) - 2))
  let p_value := 1 - cdf (p : ℤ) ((nx : ℤ) + (ny : ℤ) - (p : ℤ) - 1) statistic
  return ⟨statistic, p_value, (p : ℤ), (nx : ℤ) + (ny : ℤ) - (p : ℤ) - 1⟩

/-! Generic helpers. -/

theorem okBind {α β : Type} (a : α) (f : α → Except NpErr β) :
    (Except.ok a : Except NpErr α) >>= f = f a := rfl

theorem errBind {α β : Type} (e : NpErr) (f : α → Except NpErr β) :
    (Except.error e : Except NpErr α) >>= f = .error e := rfl

theorem pureOk {α : Type} (a : α) : (pure a : Except NpErr α) = Except.ok a := rfl

theorem getD_rangeMap {α : Type} (f : ℕ → α) (n j : ℕ) (h : j < n) (d : α) :
    ((List.range n).map f).getD j d = f j := by
  rw [List.getD_eq_getElem _ _ (by simpa using h)]
  simp

theorem getD_map {α β : Type} (f : α → β) (l : List α) (j : ℕ) (h : j < l.length)
    (d : β) (d2 : α) : (l.map f).getD j d = f (l.getD j d2) := by
  rw [List.getD_eq_getElem _ _ (by simpa using h), List.getD_eq_getElem _ _ h]
  simp

theorem getD_zipWith {α β γ : Type} (f : α → β → γ) (a : List α) (b : List β) (j : ℕ)
    (ha : j < a.length) (hb : j < b.length) (da : α) (db : β) (dc : γ) :
    (List.zipWith f a b).getD j dc = f (a.getD j da) (b.getD j db) := by
  rw [List.getD_eq_getElem _ _ (by simp [ha, hb] : j < (List.zipWith f a b).length)]
  rw [List.getD_eq_getElem _ _ ha, List.getD_eq_getElem _ _ hb]
  simp

theorem getD_ofFn {α : Type} (k : ℕ) (f : Fin k → α) (j : ℕ) (h : j < k) (d : α) :
    (List.ofFn f).getD j d = f ⟨j, h⟩ := by
  rw [List.getD_eq_getElem _ _ (by simp [h])]
  simp

theorem sum_eq_fin (l : List ℚ) (n : ℕ) (h : l.length = n) :
    l.sum = ∑ i : Fin n, l.getD i 0 := by
  subst h
  induction l with
  | nil => simp
  | cons a t ih =>
    rw [List.sum_cons, ih]
    simp only [List.length_cons]
    rw [Fin.sum_univ_succ]
    simp [List.getD_cons_succ]

/-! Specification-side formulas for the statistical test (from the
claims' words: per-column means, unbiased covariance, pooled covariance,
Hotelling statistic with an explicit inverse `B` of the pooled matrix) -/

def colMeanF (M : Mat) (p : ℕ) : Fin p → ℚ :=
  fun j => ((M.map fun r => r.getD j 0).sum) / (M.length : ℚ)

def sampleCovF (M : Mat) (p : ℕ) : Matrix (Fin p) (Fin p) ℚ :=
  Matrix.of fun j k =>
    ((M.map fun r => (r.getD j 0 - colMeanF M p j) * (r.getD k 0 - colMeanF M p k)).sum) /
      ((M.length : ℚ) - 1)

def pooledCovF (X Y : Mat) (p : ℕ) : Matrix (Fin p) (Fin p) ℚ :=
  ((X.length : ℚ) + (Y.length : ℚ) - 2)⁻¹ •
    (((X.length : ℚ) - 1) • sampleCovF X p + ((Y.length : ℚ) - 1) • sampleCovF Y p)

def deltaF (X Y : Mat) (p : ℕ) : Fin p → ℚ :=
  fun j => colMeanF X p j - colMeanF Y p j

def specT2 (X Y : Mat) (p : ℕ) (B : Matrix (Fin p) (Fin p) ℚ) : ℚ :=
  (X.length : ℚ) * (Y.length : ℚ) / ((X.length : ℚ) + (Y.length : ℚ)) *
    Matrix.dotProduct (Matrix.vecMul (deltaF X Y p) B) (deltaF X Y p)

def specStatistic (X Y : Mat) (p : ℕ) (B : Matrix (Fin p) (Fin p) ℚ) : ℚ :=
  specT2 X Y p B * ((X.length : ℚ) + (Y.length : ℚ) - (p : ℚ) - 1) /
    ((p : ℚ) * ((X.length : ℚ) + (Y.length : ℚ) - 2))

theorem det_ne_of_mul_eq_one (k : ℕ) (A B : Matrix (Fin k) (Fin k) ℚ)
    (hB : A * B = 1) : A.det ≠ 0 := by
  intro h0
  have hd := congrArg Matrix.det hB
  rw [Matrix.det_mul, h0, Matrix.det_one] at hd
  simp at hd

theorem mul_qInv_self (k : ℕ) (A : Matrix (Fin k) (Fin k) ℚ) (h : A.det ≠ 0) :
    A * qInv k A = 1 := by
  rw [qInv, Matrix.mul_smul, Matrix.mul_adjugate, smul_smul, inv_mul_cancel₀ h, one_smul]

theorem qInv_mul_self (k : ℕ) (A : Matrix (Fin k) (Fin k) ℚ) (h : A.det ≠ 0) :
    qInv k A * A = 1 := by
  rw [qInv, Matrix.smul_mul, Matrix.adjugate_mul, smul_smul, inv_mul_cancel₀ h, one_smul]

theorem qInv_eq_of_mul_eq_one (k : ℕ) (A B : Matrix (Fin k) (Fin k) ℚ)
    (hB : A * B = 1) : qInv k A = B := by
  have hdet := det_ne_of_mul_eq_one k A B hB
  calc qInv k A = qInv k A * (A * B) := by rw [hB, Matrix.mul_one]
  _ = (qInv k A * A) * B := by rw [Matrix.mul_assoc]
  _ = B := by rw [qInv_mul_self k A hdet, Matrix.one_mul]

theorem mean0_length (M : Mat) : (mean0 M).length = ncols M := by simp [mean0]

/-- Abstract stand-in for the scipy F-distribution CDF used in witnesses and
counterexamples (any function of the degrees of freedom and the statistic is
admissible, since the embedding is parametric in the CDF). -/
def cdf0 : ℤ → ℤ → ℚ → ℚ := fun _ _ _ => 0

/-- C3 (amended): when both samples have at least two columns and the column
counts differ, the mean-difference broadcast fails, so `TwoSampleT2Test`
fails with the dimension-mismatch (broadcast) error; in particular this
covers X with 2 columns and Y with 3.  (When one operand has exactly one
column, numpy broadcasting silently proceeds instead; see the
counterexample.) -/
theorem C3_dim_mismatch (cdf : ℤ → ℤ → ℚ → ℚ) (X Y : Mat) (hX : 2 ≤ ncols X)
    (hY : 2 ≤ ncols Y) (hne : ncols X ≠ ncols Y) :
    TwoSampleT2Test cdf X Y = .error .broadcastMismatch := by
  have hsub : sub1d (mean0 X) (mean0 Y) = .error .broadcastMismatch := by
    rw [sub1d]
    rw [if_neg (by rw [mean0_length, mean0_length]; exact hne)]
    rw [if_neg (by rw [mean0_length]; omega)]
    rw [if_neg (by rw [mean0_length]; omega)]
  simp only [TwoSampleT2Test]
  rw [hsub, errBind]

/-- C3 witness: X with 2 columns against Y with 3 columns fails with the
dimension-mismatch error. -/
theorem C3_witness :
    (2 ≤ ncols [[1,2],[3,4]] ∧ 2 ≤ ncols [[1,2,3],[4,5,6]] ∧
      ncols ([[1,2],[3,4]] : Mat) ≠ ncols ([[1,2,3],[4,5,6]] : Mat)) ∧
    TwoSampleT2Test cdf0 [[1,2],[3,4]] [[1,2,3],[4,5,6]] = .error .broadcastMismatch :=
  ⟨⟨by decide, by decide, by decide⟩,
    C3_dim_mismatch cdf0 [[1,2],[3,4]] [[1,2,3],[4,5,6]] (by decide) (by decide) (by decide)⟩

theorem sub1d_ne_div (a b : List ℚ) : sub1d a b ≠ .error .divByZero := by
  rw [sub1d]
  split
  · simp
  · split
    · simp
    · split
      · simp
      · simp

theorem addN_ne_div (A B : NDArr) : addN A B ≠ .error .divByZero := by
  cases A with
  | scalar x =>
    cases B with
    | scalar y => simp [addN]
    | mat m => simp [addN]
  | mat m =>
    cases B with
    | scalar y => simp [addN]
    | mat b =>
      rw [addN]
      split
      · simp
      · simp

theorem npInv_ne_div (A : NDArr) : npInv A ≠ .error .divByZero := by
  cases A with
  | scalar x => simp [npInv]
  | mat m =>
    rw [npInv]
    split
    · split
      · simp
      · simp
    · simp

theorem vecMatE_ne_div (v : List ℚ) (m : Mat) : vecMatE v m ≠ .error .divByZero := by
  rw [vecMatE]
  split
  · simp
  · simp

theorem dotE_ne_div (a b : List ℚ) : dotE a b ≠ .error .divByZero := by
  rw [dotE]
  split
  · simp
  · simp

/-- C9: under the precondition (both samples with p ≥ 1 columns and more than
p rows) the three divisors of the source — `nx+ny-2` in the pooling step,
`nx+ny` in the T² scaling and `p*(nx+ny-2)` in the F conversion — are
nonzero, and the run can never surface the division-by-zero event. -/
theorem C9_div_safety (cdf : ℤ → ℤ → ℚ → ℚ) (X Y : Mat) (p : ℕ) (hp : 1 ≤ p)
    (hXc : ncols X = p) (hYc : ncols Y = p) (h1 : p < nrows X) (h2 : p < nrows Y) :
    ((nrows X : ℚ) + (nrows Y : ℚ) - 2 ≠ 0 ∧ (nrows X : ℚ) + (nrows Y : ℚ) ≠ 0 ∧
      (p : ℚ) * ((nrows X : ℚ) + (nrows Y : ℚ) - 2) ≠ 0) ∧
    TwoSampleT2Test cdf X Y ≠ .error .divByZero := by
  have hnx : 2 ≤ nrows X := by omega
  have hny : 2 ≤ nrows Y := by omega
  have hqx : (2 : ℚ) ≤ (nrows X : ℚ) := by exact_mod_cast hnx
  have hqy : (2 : ℚ) ≤ (nrows Y : ℚ) := by exact_mod_cast hny
  have hqp : (1 : ℚ) ≤ (p : ℚ) := by exact_mod_cast hp
  have hd1 : (nrows X : ℚ) + (nrows Y : ℚ) - 2 ≠ 0 := by linarith
  have hd2 : (nrows X : ℚ) + (nrows Y : ℚ) ≠ 0 := by linarith
  have hd3 : (p : ℚ) * ((nrows X : ℚ) + (nrows Y : ℚ) - 2) ≠ 0 :=
    mul_ne_zero (by linarith) hd1
  refine ⟨⟨hd1, hd2, hd3⟩, ?_⟩
  intro hcontra
  simp only [TwoSampleT2Test] at hcontra
  rw [hXc] at hcontra
  cases hs1 : sub1d (mean0 X) (mean0 Y) with
  | error e =>
    rw [hs1, errBind] at hcontra
    exact sub1d_ne_div _ _ (by rw [hs1, Except.error.inj hcontra])
  | ok delta =>
    rw [hs1, okBind] at hcontra
    cases hs2 : addN (smulN ((nrows X : ℚ) - 1) (npCov X))
        (smulN ((nrows Y : ℚ) - 1) (npCov Y)) with
    | error e =>
      rw [hs2, errBind] at hcontra
      exact addN_ne_div _ _ (by rw [hs2, Except.error.inj hcontra])
    | ok Spre =>
      rw [hs2, okBind, divN, if_neg hd1, okBind, divQ, if_neg hd2, okBind] at hcontra
      cases hs3 : npInv (smulN ((nrows X : ℚ) + (nrows Y : ℚ) - 2)⁻¹ Spre) with
      | error e =>
        rw [hs3, errBind] at hcontra
        exact npInv_ne_div _ (by rw [hs3, Except.error.inj hcontra])
      | ok Sinv =>
        rw [hs3, okBind] at hcontra
        cases hs4 : vecMatE delta Sinv with
        | error e =>
          rw [hs4, errBind] at hcontra
          exact vecMatE_ne_div _ _ (by rw [hs4, Except.error.inj hcontra])
        | ok w =>
          rw [hs4, okBind] at hcontra
          cases hs5 : dotE w delta with
          | error e =>
            rw [hs5, errBind] at hcontra
            exact dotE_ne_div _ _ (by rw [hs5, Except.error.inj hcontra])
          | ok q =>
            rw [hs5, okBind, divQ, if_neg hd3, okBind, pureOk] at hcontra
            exact absurd hcontra (by simp)

/-- C9 witness: a concrete instance of the precondition with p = 2 and two
3-row samples. -/
theorem C9_witness :
    (1 ≤ 2 ∧ ncols ([[1,0],[0,1],[1,1]] : Mat) = 2 ∧ ncols ([[2,0],[0,2],[1,1]] : Mat) = 2 ∧
      2 < nrows ([[1,0],[0,1],[1,1]] : Mat) ∧ 2 < nrows ([[2,0],[0,2],[1,1]] : Mat)) ∧
    (((nrows ([[1,0],[0,1],[1,1]] : Mat) : ℚ) + (nrows ([[2,0],[0,2],[1,1]] : Mat) : ℚ) - 2 ≠ 0 ∧
      (nrows ([[1,0],[0,1],[1,1]] : Mat) : ℚ) + (nrows ([[2,0],[0,2],[1,1]] : Mat) : ℚ) ≠ 0 ∧
      ((2 : ℕ) : ℚ) * ((nrows ([[1,0],[0,1],[1,1]] : Mat) : ℚ) +
        (nrows ([[2,0],[0,2],[1,1]] : Mat) : ℚ) - 2) ≠ 0) ∧
      TwoSampleT2Test cdf0 [[1,0],[0,1],[1,1]] [[2,0],[0,2],[1,1]] ≠ .error .divByZero) :=
  ⟨⟨by decide, by decide, by decide, by decide, by decide⟩,
    C9_div_safety cdf0 [[1,0],[0,1],[1,1]] [[2,0],[0,2],[1,1]] 2 (by decide)
      (by decide) (by decide) (by decide) (by decide)⟩

/-- C10 (amended): whenever `TwoSampleT2Test` returns a result, the degrees
of freedom it reports are `(p, nx+ny-p-1)` where `p` is the column count of
the first argument `X` and `ny` enters only through `Y`'s row count; in
particular they are independent of `Y`'s column count.  (If `Y`'s column
count differs from `X`'s, with both at least 2, the call fails instead of
reporting anything; see the counterexample.) -/
theorem C10_df_from_X (cdf : ℤ → ℤ → ℚ → ℚ) (X Y : Mat) (r : T2Result)
    (h : TwoSampleT2Test cdf X Y = .ok r) :
    r.df1 = (ncols X : ℤ) ∧ r.df2 = (nrows X : ℤ) + (nrows Y : ℤ) - (ncols X : ℤ) - 1 := by
  simp only [TwoSampleT2Test] at h
  cases hs1 : sub1d (mean0 X) (mean0 Y) with
  | error e => rw [hs1, errBind] at h; exact absurd h (by simp)
  | ok delta =>
    rw [hs1, okBind] at h
    cases hs2 : addN (smulN ((nrows X : ℚ) - 1) (npCov X))
        (smulN ((nrows Y : ℚ) - 1) (npCov Y)) with
    | error e => rw [hs2, errBind] at h; exact absurd h (by simp)
    | ok Spre =>
      rw [hs2, okBind] at h
      cases hs3 : divN Spre ((nrows X : ℚ) + (nrows Y : ℚ) - 2) with
      | error e => rw [hs3, errBind] at h; exact absurd h (by simp)
      | ok S_pooled =>
        rw [hs3, okBind] at h
        cases hs4 : divQ ((nrows X : ℚ) * (nrows Y : ℚ)) ((nrows X : ℚ) + (nrows Y : ℚ)) with
        | error e => rw [hs4, errBind] at h; exact absurd h (by simp)
        | ok scale =>
          rw [hs4, okBind] at h
          cases hs5 : npInv S_pooled with
          | error e => rw [hs5, errBind] at h; exact absurd h (by simp)
          | ok Sinv =>
            rw [hs5, okBind] at h
            cases hs6 : vecMatE delta Sinv with
            | error e => rw [hs6, errBind] at h; exact absurd h (by simp)
            | ok w =>
              rw [hs6, okBind] at h
              cases hs7 : dotE w delta with
              | error e => rw [hs7, errBind] at h; exact absurd h (by simp)
              | ok q =>
                rw [hs7, okBind] at h
                cases hs8 : divQ (scale * q * ((nrows X : ℚ) + (nrows Y : ℚ) - (ncols X : ℚ) - 1))
                    ((ncols X : ℚ) * ((nrows X : ℚ) + (nrows Y : ℚ) - 2)) with
                | error e => rw [hs8, errBind] at h; exact absurd h (by simp)
                | ok s =>
                  rw [hs8, okBind, pureOk] at h
                  rw [← Except.ok.inj h]
                  exact ⟨rfl, rfl⟩

theorem zipWith_sub_comm (a b : List ℚ) :
    List.zipWith (· - ·) b a = (List.zipWith (· - ·) a b).map fun x => -x := by
  induction a generalizing b with
  | nil => cases b <;> simp
  | cons x xs ih =>
    cases b with
    | nil => simp
    | cons y ys => simp [ih, neg_sub]

theorem addN_comm (A B : NDArr) : addN A B = addN B A := by
  cases A with
  | scalar x =>
    cases B with
    | scalar y => simp [addN, add_comm]
    | mat m =>
      rw [addN, addN]
      rw [show (fun y => x + y) = fun y => y + x from funext fun y => add_comm x y]
  | mat m =>
    cases B with
    | scalar y =>
      rw [addN, addN]
      rw [show (fun x => x + y) = fun x => y + x from funext fun x => add_comm x y]
    | mat b =>
      rw [addN, addN]
      by_cases hc : m.length = b.length ∧ ncols m = ncols b
      · rw [if_pos hc, if_pos ⟨hc.1.symm, hc.2.symm⟩]
        rw [List.zipWith_comm_of_comm _ (fun r s => List.zipWith_comm_of_comm _ add_comm r s) m b]
      · rw [if_neg hc, if_neg fun hcc => hc ⟨hcc.1.symm, hcc.2.symm⟩]

theorem dotL_neg_left (a b : List ℚ) : dotL (a.map fun x => -x) b = -dotL a b := by
  induction a generalizing b with
  | nil => simp [dotL]
  | cons x xs ih =>
    cases b with
    | nil => simp [dotL]
    | cons y ys =>
      have ih2 : (List.zipWith (· * ·) (xs.map fun t => -t) ys).sum
          = -(List.zipWith (· * ·) xs ys).sum := ih ys
      simp only [List.map_cons, dotL, List.zipWith_cons_cons, List.sum_cons]
      rw [ih2]
      ring

theorem dotL_neg_neg (a b : List ℚ) :
    dotL (a.map fun x => -x) (b.map fun x => -x) = dotL a b := by
  induction a generalizing b with
  | nil => simp [dotL]
  | cons x xs ih =>
    cases b with
    | nil => simp [dotL]
    | cons y ys =>
      have ih2 : (List.zipWith (· * ·) (xs.map fun t => -t) (ys.map fun t => -t)).sum
          = (List.zipWith (· * ·) xs ys).sum := ih ys
      simp only [List.map_cons, dotL, List.zipWith_cons_cons, List.sum_cons]
      rw [ih2]
      ring

theorem vecMatE_neg (v : List ℚ) (m : Mat) :
    vecMatE (v.map fun x => -x) m = (vecMatE v m).map fun w => w.map fun x => -x := by
  rw [vecMatE, vecMatE, List.length_map]
  split
  · simp only [Except.map]
    congr 1
    rw [List.map_map]
    exact List.map_congr_left fun j _ => dotL_neg_left v (colL m j)
  · rfl

theorem dotE_neg_neg (a b : List ℚ) :
    dotE (a.map fun x => -x) (b.map fun x => -x) = dotE a b := by
  rw [dotE, dotE, List.length_map, List.length_map]
  split
  · rw [dotL_neg_neg]
  · rfl

/-- C7: with equal column counts the test is fully symmetric in its two
samples: swapping them yields the identical outcome, in particular the same
statistic and the same p-value whenever a result is returned (the
mean-difference enters only through the quadratic form). -/
theorem C7_swap_symmetric (cdf : ℤ → ℤ → ℚ → ℚ) (X Y : Mat) (h : ncols X = ncols Y) :
    TwoSampleT2Test cdf Y X = TwoSampleT2Test cdf X Y := by
  simp only [TwoSampleT2Test]
  rw [← h]
  have hXY : sub1d (mean0 X) (mean0 Y)
      = .ok (List.zipWith (· - ·) (mean0 X) (mean0 Y)) := by
    rw [sub1d, if_pos (by rw [mean0_length, mean0_length]; exact h)]
  have hYX : sub1d (mean0 Y) (mean0 X)
      = .ok ((List.zipWith (· - ·) (mean0 X) (mean0 Y)).map fun x => -x) := by
    rw [sub1d, if_pos (by rw [mean0_length, mean0_length]; exact h.symm)]
    rw [zipWith_sub_comm]
  rw [hXY, hYX, okBind, okBind]
  rw [addN_comm (smulN ((nrows Y : ℚ) - 1) (npCov Y)) (smulN ((nrows X : ℚ) - 1) (npCov X))]
  rw [show (nrows Y : ℚ) * (nrows X : ℚ) = (nrows X : ℚ) * (nrows Y : ℚ) from by ring]
  rw [show (nrows Y : ℚ) + (nrows X : ℚ) = (nrows X : ℚ) + (nrows Y : ℚ) from by ring]
  rw [show (nrows Y : ℤ) + (nrows X : ℤ) = (nrows X : ℤ) + (nrows Y : ℤ) from by ring]
  cases hA : addN (smulN ((nrows X : ℚ) - 1) (npCov X)) (smulN ((nrows Y : ℚ) - 1) (npCov Y)) with
  | error e => rw [errBind, errBind]
  | ok Spre =>
    rw [okBind, okBind]
    cases hB : divN Spre ((nrows X : ℚ) + (nrows Y : ℚ) - 2) with
    | error e => rw [errBind, errBind]
    | ok S_pooled =>
      rw [okBind, okBind]
      cases hC : divQ ((nrows X : ℚ) * (nrows Y : ℚ)) ((nrows X : ℚ) + (nrows Y : ℚ)) with
      | error e => rw [errBind, errBind]
      | ok scale =>
        rw [okBind, okBind]
        cases hD : npInv S_pooled with
        | error e => rw [errBind, errBind]
        | ok Sinv =>
          rw [okBind, okBind, vecMatE_neg]
          cases hE : vecMatE (List.zipWith (· - ·) (mean0 X) (mean0 Y)) Sinv with
          | error e => simp only [Except.map, errBind]
          | ok w =>
            simp only [Except.map]
            rw [okBind, okBind, dotE_neg_neg]

/-- C7 witness: instantiation at two concrete 2-column samples. -/
theorem C7_witness :
    ncols ([[1,2],[3,4],[5,6]] : Mat) = ncols ([[0,1],[1,0],[2,2]] : Mat) ∧
      TwoSampleT2Test cdf0 [[0,1],[1,0],[2,2]] [[1,2],[3,4],[5,6]]
        = TwoSampleT2Test cdf0 [[1,2],[3,4],[5,6]] [[0,1],[1,0],[2,2]] :=
  ⟨by decide, C7_swap_symmetric cdf0 [[1,2],[3,4],[5,6]] [[0,1],[1,0],[2,2]] (by decide)⟩

/-! Bridge lemmas: the list-level run against the spec-side formulas. -/

theorem ncols_of_rect (M : Mat) (p : ℕ) (h : ∀ r ∈ M, r.length = p) (hM : M ≠ []) :
    ncols M = p := by
  cases M with
  | nil => exact absurd rfl hM
  | cons r t => exact h r (by simp)

theorem mean0_entry (M : Mat) (j : ℕ) (hj : j < ncols M) :
    (mean0 M).getD j 0 = meanL (colL M j) := by
  rw [mean0, getD_rangeMap _ _ _ hj]

theorem meanL_colL (M : Mat) (p : ℕ) (j : ℕ) (hj : j < p) :
    meanL (colL M j) = colMeanF M p ⟨j, hj⟩ := by
  rw [meanL, colMeanF, colL, List.length_map]

theorem dotL_map_same {α : Type} (l : List α) (f g : α → ℚ) :
    dotL (l.map f) (l.map g) = (l.map fun x => f x * g x).sum := by
  rw [dotL, List.zipWith_map, List.zipWith_same]

theorem ncols_map_map (m : Mat) (f : ℚ → ℚ) :
    ncols (m.map (List.map f)) = ncols m := by
  cases m with
  | nil => rfl
  | cons r t => simp [ncols]

theorem transposeM_length (M : Mat) : (transposeM M).length = ncols M := by
  simp [transposeM]

theorem ncols_transposeM (M : Mat) (h : 1 ≤ ncols M) :
    ncols (transposeM M) = M.length := by
  obtain ⟨p2, hp2⟩ : ∃ p2, ncols M = p2 + 1 := ⟨ncols M - 1, by omega⟩
  rw [transposeM, hp2, List.range_succ_eq_map]
  simp [ncols, colL]

theorem ncols_ofSq (k : ℕ) (h : 1 ≤ k) (A : Matrix (Fin k) (Fin k) ℚ) :
    ncols (ofSq k A) = k := by
  obtain ⟨k2, hk2⟩ : ∃ k2, k = k2 + 1 := ⟨k - 1, by omega⟩
  subst hk2
  rw [ofSq, List.ofFn_succ]
  simp [ncols]

theorem length_ofSq (k : ℕ) (A : Matrix (Fin k) (Fin k) ℚ) : (ofSq k A).length = k := by
  simp [ofSq]

theorem npCov_eval (M : Mat) (p : ℕ) (hp : 2 ≤ p) (hM : ∀ r ∈ M, r.length = p)
    (hn : 2 ≤ nrows M) :
    npCov M = .mat (covVV (transposeM M)) ∧ (covVV (transposeM M)).length = p ∧
      (∀ row ∈ covVV (transposeM M), row.length = p) ∧
      ∀ (j k : ℕ) (hj : j < p) (hk : k < p),
        ((covVV (transposeM M)).getD j []).getD k 0 = sampleCovF M p ⟨j, hj⟩ ⟨k, hk⟩ := by
  have hMne : M ≠ [] := by
    intro hcon
    rw [hcon] at hn
    simp [nrows] at hn
  have hcM : ncols M = p := ncols_of_rect M p hM hMne
  have hVlen : (transposeM M).length = p := by rw [transposeM_length, hcM]
  have hClen : (covVV (transposeM M)).length = p := by
    rw [covVV, List.length_map, hVlen]
  refine ⟨?_, hClen, ?_, ?_⟩
  · rw [npCov]
    rw [if_neg (by omega : ¬ nrows M = 1)]
    rw [if_neg (by omega : ¬ (covVV (transposeM M)).length = 1)]
  · intro row hrow
    rw [covVV] at hrow
    rcases List.mem_map.mp hrow with ⟨vi, _, hvi⟩
    rw [← hvi, List.length_map, hVlen]
  · intro j k hj hk
    have hVj : (transposeM M).getD j [] = colL M j := by
      rw [transposeM, getD_rangeMap _ _ _ (by rw [hcM]; exact hj)]
    have hVk : (transposeM M).getD k [] = colL M k := by
      rw [transposeM, getD_rangeMap _ _ _ (by rw [hcM]; exact hk)]
    have hstep : ((covVV (transposeM M)).getD j []).getD k 0 =
        dotL (centerL (colL M j)) (centerL (colL M k)) / ((ncols (transposeM M) : ℚ) - 1) := by
      rw [covVV, getD_map _ _ _ (by rw [hVlen]; exact hj) _ []]
      rw [getD_map _ _ _ (by rw [hVlen]; exact hk) _ []]
      rw [hVj, hVk]
    rw [hstep, ncols_transposeM M (by omega)]
    have hcj : centerL (colL M j) = M.map fun r => r.getD j 0 - colMeanF M p ⟨j, hj⟩ := by
      rw [centerL, meanL_colL M p j hj, colL, List.map_map]
      rfl
    have hck : centerL (colL M k) = M.map fun r => r.getD k 0 - colMeanF M p ⟨k, hk⟩ := by
      rw [centerL, meanL_colL M p k hk, colL, List.map_map]
      rfl
    rw [hcj, hck, dotL_map_same]
    rw [sampleCovF]
    rfl

theorem getD_mem_of_lt {α : Type} (l : List α) (j : ℕ) (h : j < l.length) (d : α) :
    l.getD j d ∈ l := by
  rw [List.getD_eq_getElem _ _ h]
  exact List.getElem_mem h

theorem ncols_zipWith_add (a b : Mat) (ha : a ≠ []) (hb : b ≠ []) :
    ncols (List.zipWith (List.zipWith (· + ·)) a b) = min (ncols a) (ncols b) := by
  cases a with
  | nil => exact absurd rfl ha
  | cons ra ta =>
    cases b with
    | nil => exact absurd rfl hb
    | cons rb tb => simp [ncols]


theorem pooled_entry (cx cy : ℚ) (d : ℚ) (CX CY : Mat) (p : ℕ)
    (hCx2 : CX.length = p) (hCx3 : ∀ row ∈ CX, row.length = p)
    (hCy2 : CY.length = p) (hCy3 : ∀ row ∈ CY, row.length = p)
    (j k : ℕ) (hj : j < p) (hk : k < p) :
    (((List.zipWith (List.zipWith (· + ·))
        (CX.map fun row => row.map fun x => cx * x)
        (CY.map fun row => row.map fun x => cy * x)).map
          fun row => row.map fun x => d * x).getD j []).getD k 0
      = d * (cx * (CX.getD j []).getD k 0 + cy * (CY.getD j []).getD k 0) := by
  have lX : (CX.getD j []).length = p := hCx3 _ (getD_mem_of_lt CX j (by omega) [])
  have lY : (CY.getD j []).length = p := hCy3 _ (getD_mem_of_lt CY j (by omega) [])
  have hMXlen : (CX.map fun row => row.map fun x => cx * x).length = p := by
    rw [List.length_map, hCx2]
  have hMYlen : (CY.map fun row => row.map fun x => cy * x).length = p := by
    rw [List.length_map, hCy2]
  have hZlen : (List.zipWith (List.zipWith (· + ·))
      (CX.map fun row => row.map fun x => cx * x)
      (CY.map fun row => row.map fun x => cy * x)).length = p := by
    rw [List.length_zipWith, hMXlen, hMYlen]
    omega
  have hMXrow : (CX.map fun row => row.map fun x => cx * x).getD j []
      = (CX.getD j []).map fun x => cx * x :=
    getD_map _ CX j (by omega) [] []
  have hMYrow : (CY.map fun row => row.map fun x => cy * x).getD j []
      = (CY.getD j []).map fun x => cy * x :=
    getD_map _ CY j (by omega) [] []
  have hZrow : (List.zipWith (List.zipWith (· + ·))
      (CX.map fun row => row.map fun x => cx * x)
      (CY.map fun row => row.map fun x => cy * x)).getD j []
      = List.zipWith (· + ·) ((CX.getD j []).map fun x => cx * x)
          ((CY.getD j []).map fun x => cy * x) := by
    rw [getD_zipWith _ _ _ j (by omega) (by omega) [] [] [], hMXrow, hMYrow]
  have hrowlen : (List.zipWith (· + ·) ((CX.getD j []).map fun x => cx * x)
      ((CY.getD j []).map fun x => cy * x)).length = p := by
    rw [List.length_zipWith, List.length_map, List.length_map, lX, lY]
    omega
  rw [getD_map _ _ j (by omega) [] []]
  rw [hZrow]
  rw [getD_map _ _ k (by rw [hrowlen]; omega) 0 0]
  rw [getD_zipWith _ _ _ k (by rw [List.length_map, lX]; omega)
    (by rw [List.length_map, lY]; omega) 0 0 0]
  rw [getD_map _ _ k (by rw [lX]; omega) 0 0, getD_map _ _ k (by rw [lY]; omega) 0 0]

theorem colL_ofSq_entry (p : ℕ) (B2 : Matrix (Fin p) (Fin p) ℚ) (i j : ℕ)
    (hi : i < p) (hj : j < p) :
    (colL (ofSq p B2) j).getD i 0 = B2 ⟨i, hi⟩ ⟨j, hj⟩ := by
  rw [colL, getD_map _ _ i (by rw [length_ofSq]; omega) 0 []]
  rw [ofSq, getD_ofFn p _ i hi, getD_ofFn p _ j hj]

theorem dotL_fin (a b : List ℚ) (p : ℕ) (ha : a.length = p) (hb : b.length = p)
    (fa fb : Fin p → ℚ) (hea : ∀ (j : ℕ) (hj : j < p), a.getD j 0 = fa ⟨j, hj⟩)
    (heb : ∀ (j : ℕ) (hj : j < p), b.getD j 0 = fb ⟨j, hj⟩) :
    dotL a b = ∑ i : Fin p, fa i * fb i := by
  rw [dotL, sum_eq_fin _ p (by rw [List.length_zipWith, ha, hb]; omega)]
  apply Finset.sum_congr rfl
  intro i _
  rw [getD_zipWith _ _ _ i (by rw [ha]; exact i.isLt) (by rw [hb]; exact i.isLt) 0 0 0]
  rw [hea i i.isLt, heb i i.isLt]

set_option maxHeartbeats 1000000 in
theorem t2_eval (cdf : ℤ → ℤ → ℚ → ℚ) (X Y : Mat) (p : ℕ) (hp : 2 ≤ p)
    (hXr : ∀ r ∈ X, r.length = p) (hYr : ∀ r ∈ Y, r.length = p)
    (hnx : 2 ≤ X.length) (hny : 2 ≤ Y.length) :
    TwoSampleT2Test cdf X Y =
      if (pooledCovF X Y p).det = 0 then .error .singularMatrix
      else .ok ⟨specStatistic X Y p (qInv p (pooledCovF X Y p)),
        1 - cdf (p : ℤ) ((X.length : ℤ) + (Y.length : ℤ) - (p : ℤ) - 1)
          (specStatistic X Y p (qInv p (pooledCovF X Y p))),
        (p : ℤ), (X.length : ℤ) + (Y.length : ℤ) - (p : ℤ) - 1⟩ := by
  have hXne : X ≠ [] := by intro hcon; rw [hcon] at hnx; simp at hnx
  have hYne : Y ≠ [] := by intro hcon; rw [hcon] at hny; simp at hny
  have hcX : ncols X = p := ncols_of_rect X p hXr hXne
  have hcY : ncols Y = p := ncols_of_rect Y p hYr hYne
  obtain ⟨hCx1, hCx2, hCx3, hCx4⟩ := npCov_eval X p hp hXr (by simpa [nrows] using hnx)
  obtain ⟨hCy1, hCy2, hCy3, hCy4⟩ := npCov_eval Y p hp hYr (by simpa [nrows] using hny)
  have hCXne : covVV (transposeM X) ≠ [] := by
    intro hcon
    rw [hcon] at hCx2
    simp at hCx2
    omega
  have hCYne : covVV (transposeM Y) ≠ [] := by
    intro hcon
    rw [hcon] at hCy2
    simp at hCy2
    omega
  have hncX : ncols (covVV (transposeM X)) = p := ncols_of_rect _ p hCx3 hCXne
  have hncY : ncols (covVV (transposeM Y)) = p := ncols_of_rect _ p hCy3 hCYne
  have hdelta : sub1d (mean0 X) (mean0 Y)
      = .ok (List.zipWith (· - ·) (mean0 X) (mean0 Y)) := by
    rw [sub1d, if_pos (by rw [mean0_length, mean0_length, hcX, hcY])]
  have hdlen : (List.zipWith (· - ·) (mean0 X) (mean0 Y)).length = p := by
    rw [List.length_zipWith, mean0_length, mean0_length, hcX, hcY]
    omega
  have hdentry : ∀ (j : ℕ) (hj : j < p),
      (List.zipWith (· - ·) (mean0 X) (mean0 Y)).getD j 0 = deltaF X Y p ⟨j, hj⟩ := by
    intro j hj
    rw [getD_zipWith _ _ _ j (by rw [mean0_length, hcX]; exact hj)
      (by rw [mean0_length, hcY]; exact hj) 0 0 0]
    rw [mean0_entry X j (by rw [hcX]; exact hj), mean0_entry Y j (by rw [hcY]; exact hj)]
    rw [meanL_colL X p j hj, meanL_colL Y p j hj]
    rfl
  have haddN : addN (smulN ((X.length : ℚ) - 1) (NDArr.mat (covVV (transposeM X))))
      (smulN ((Y.length : ℚ) - 1) (NDArr.mat (covVV (transposeM Y))))
      = .ok (.mat (List.zipWith (List.zipWith (· + ·))
          ((covVV (transposeM X)).map fun row => row.map fun x => ((X.length : ℚ) - 1) * x)
          ((covVV (transposeM Y)).map fun row => row.map fun x => ((Y.length : ℚ) - 1) * x))) := by
    simp only [smulN]
    rw [addN, if_pos]
    constructor
    · rw [List.length_map, List.length_map, hCx2, hCy2]
    · rw [ncols_map_map, ncols_map_map, hncX, hncY]
  have hd : ((X.length : ℚ) + (Y.length : ℚ) - 2) ≠ 0 := by
    have h1 : (2 : ℚ) ≤ (X.length : ℚ) := by exact_mod_cast hnx
    have h2 : (2 : ℚ) ≤ (Y.length : ℚ) := by exact_mod_cast hny
    linarith
  have hd2 : ((X.length : ℚ) + (Y.length : ℚ)) ≠ 0 := by
    have h1 : (2 : ℚ) ≤ (X.length : ℚ) := by exact_mod_cast hnx
    have h2 : (2 : ℚ) ≤ (Y.length : ℚ) := by exact_mod_cast hny
    linarith
  have hd3 : ((p : ℚ) * ((X.length : ℚ) + (Y.length : ℚ) - 2)) ≠ 0 := by
    have h1 : (2 : ℚ) ≤ (X.length : ℚ) := by exact_mod_cast hnx
    have h2 : (2 : ℚ) ≤ (Y.length : ℚ) := by exact_mod_cast hny
    have h3 : (2 : ℚ) ≤ (p : ℚ) := by exact_mod_cast hp
    exact mul_ne_zero (by linarith) (by linarith)
  have hdivN : divN (NDArr.mat (List.zipWith (List.zipWith (· + ·))
      ((covVV (transposeM X)).map fun row => row.map fun x => ((X.length : ℚ) - 1) * x)
      ((covVV (transposeM Y)).map fun row => row.map fun x => ((Y.length : ℚ) - 1) * x)))
      ((X.length : ℚ) + (Y.length : ℚ) - 2)
      = .ok (.mat ((List.zipWith (List.zipWith (· + ·))
          ((covVV (transposeM X)).map fun row => row.map fun x => ((X.length : ℚ) - 1) * x)
          ((covVV (transposeM Y)).map fun row => row.map fun x => ((Y.length : ℚ) - 1) * x)).map
            fun row => row.map fun x => ((X.length : ℚ) + (Y.length : ℚ) - 2)⁻¹ * x)) := by
    rw [divN, if_neg hd]
    rfl
  have hSPLlen : ((List.zipWith (List.zipWith (· + ·))
      ((covVV (transposeM X)).map fun row => row.map fun x => ((X.length : ℚ) - 1) * x)
      ((covVV (transposeM Y)).map fun row => row.map fun x => ((Y.length : ℚ) - 1) * x)).map
        fun row => row.map fun x => ((X.length : ℚ) + (Y.length : ℚ) - 2)⁻¹ * x).length = p := by
    rw [List.length_map, List.length_zipWith, List.length_map, List.length_map, hCx2, hCy2]
    omega
  have hncSPL : ncols ((List.zipWith (List.zipWith (· + ·))
      ((covVV (transposeM X)).map fun row => row.map fun x => ((X.length : ℚ) - 1) * x)
      ((covVV (transposeM Y)).map fun row => row.map fun x => ((Y.length : ℚ) - 1) * x)).map
        fun row => row.map fun x => ((X.length : ℚ) + (Y.length : ℚ) - 2)⁻¹ * x) = p := by
    rw [ncols_map_map, ncols_zipWith_add _ _ (by simpa using hCXne) (by simpa using hCYne)]
    rw [ncols_map_map, ncols_map_map, hncX, hncY]
    omega
  have htoSq : toSq p ((List.zipWith (List.zipWith (· + ·))
      ((covVV (transposeM X)).map fun row => row.map fun x => ((X.length : ℚ) - 1) * x)
      ((covVV (transposeM Y)).map fun row => row.map fun x => ((Y.length : ℚ) - 1) * x)).map
        fun row => row.map fun x => ((X.length : ℚ) + (Y.length : ℚ) - 2)⁻¹ * x)
      = pooledCovF X Y p := by
    ext i j
    rw [toSq, Matrix.of_apply]
    rw [pooled_entry _ _ _ _ _ p hCx2 hCx3 hCy2 hCy3 i j i.isLt j.isLt]
    rw [hCx4 i j i.isLt j.isLt, hCy4 i j i.isLt j.isLt]
    rw [pooledCovF]
    simp only [Matrix.smul_apply, Matrix.add_apply, smul_eq_mul, Fin.eta]
  have hinv : npInv (NDArr.mat ((List.zipWith (List.zipWith (· + ·))
      ((covVV (transposeM X)).map fun row => row.map fun x => ((X.length : ℚ) - 1) * x)
      ((covVV (transposeM Y)).map fun row => row.map fun x => ((Y.length : ℚ) - 1) * x)).map
        fun row => row.map fun x => ((X.length : ℚ) + (Y.length : ℚ) - 2)⁻¹ * x))
      = if (pooledCovF X Y p).det = 0 then .error .singularMatrix
        else .ok (ofSq p (qInv p (pooledCovF X Y p))) := by
    simp only [npInv]
    rw [hSPLlen, if_pos hncSPL, htoSq]
  simp only [TwoSampleT2Test, nrows]
  rw [hcX]
  rw [hdelta, okBind, hCx1, hCy1, haddN, okBind, hdivN, okBind, divQ, if_neg hd2, okBind, hinv]
  by_cases hdet : (pooledCovF X Y p).det = 0
  · rw [if_pos hdet, if_pos hdet, errBind]
  · rw [if_neg hdet, if_neg hdet, okBind]
    have hvec : vecMatE (List.zipWith (· - ·) (mean0 X) (mean0 Y))
        (ofSq p (qInv p (pooledCovF X Y p)))
        = .ok ((List.range p).map fun j => dotL (List.zipWith (· - ·) (mean0 X) (mean0 Y))
            (colL (ofSq p (qInv p (pooledCovF X Y p))) j)) := by
      rw [vecMatE, if_pos (by rw [hdlen, length_ofSq])]
      rw [ncols_ofSq p (by omega) (qInv p (pooledCovF X Y p))]
    rw [hvec, okBind]
    have hwlen : ((List.range p).map fun j => dotL (List.zipWith (· - ·) (mean0 X) (mean0 Y))
        (colL (ofSq p (qInv p (pooledCovF X Y p))) j)).length = p := by
      rw [List.length_map, List.length_range]
    have hwe : ∀ (j : ℕ) (hj : j < p),
        ((List.range p).map fun j => dotL (List.zipWith (· - ·) (mean0 X) (mean0 Y))
          (colL (ofSq p (qInv p (pooledCovF X Y p))) j)).getD j 0
        = Matrix.vecMul (deltaF X Y p) (qInv p (pooledCovF X Y p)) ⟨j, hj⟩ := by
      intro j hj
      rw [getD_rangeMap _ _ _ hj]
      rw [dotL_fin _ _ p hdlen (by rw [colL, List.length_map, length_ofSq])
        (deltaF X Y p) (fun i => qInv p (pooledCovF X Y p) i ⟨j, hj⟩) hdentry
        (fun i hi => colL_ofSq_entry p _ i j hi hj)]
      rfl
    have hdot : dotE ((List.range p).map fun j =>
        dotL (List.zipWith (· - ·) (mean0 X) (mean0 Y))
          (colL (ofSq p (qInv p (pooledCovF X Y p))) j))
        (List.zipWith (· - ·) (mean0 X) (mean0 Y))
        = .ok (Matrix.dotProduct
            (Matrix.vecMul (deltaF X Y p) (qInv p (pooledCovF X Y p))) (deltaF X Y p)) := by
      rw [dotE, if_pos (by rw [hwlen, hdlen])]
      congr 1
      rw [dotL_fin _ _ p hwlen hdlen
        (Matrix.vecMul (deltaF X Y p) (qInv p (pooledCovF X Y p))) (deltaF X Y p) hwe hdentry]
      rfl
    rw [hdot, okBind, divQ, if_neg hd3, okBind, pureOk]
    rw [specStatistic, specT2]

theorem toSq_two (a b c d : ℚ) : toSq 2 [[a,b],[c,d]] = Matrix.of ![![a,b],![c,d]] := by
  ext i j
  fin_cases i <;> fin_cases j <;> simp [toSq]

theorem npInv_two (a b c d : ℚ) :
    npInv (NDArr.mat [[a,b],[c,d]]) =
      if a * d - b * c = 0 then .error .singularMatrix
      else .ok [[(a * d - b * c)⁻¹ * d, (a * d - b * c)⁻¹ * -b],
                [(a * d - b * c)⁻¹ * -c, (a * d - b * c)⁻¹ * a]] := by
  show (if ncols [[a,b],[c,d]] = 2 then
      if (toSq 2 [[a,b],[c,d]]).det = 0 then Except.error NpErr.singularMatrix
      else Except.ok (ofSq 2 (qInv 2 (toSq 2 [[a,b],[c,d]])))
    else Except.error NpErr.shapeMismatch) = _
  rw [if_pos (by rfl)]
  rw [toSq_two]
  rw [show (Matrix.of ![![a,b],![c,d]]).det = a * d - b * c from by
    rw [Matrix.det_fin_two]; simp]
  by_cases hd : a * d - b * c = 0
  · rw [if_pos hd, if_pos hd]
  · rw [if_neg hd, if_neg hd]
    congr 1
    rw [ofSq, qInv]
    rw [show (Matrix.of ![![a,b],![c,d]]).det = a * d - b * c from by
      rw [Matrix.det_fin_two]; simp]
    rw [Matrix.adjugate_fin_two]
    simp [List.ofFn_succ, Matrix.smul_apply]

/-- C1 (amended): for inputs with p ≥ 2 columns (the claim's p = 1 case makes
numpy crash in `np.linalg.inv`; see the counterexample), rectangular shapes
n1 x p and n2 x p with n1, n2 > p, and any inverse B of the pooled
covariance, the function returns exactly the claim's statistic and
p-value = 1 - CDF_F(statistic; p, n1+n2-p-1), with those degrees of
freedom. -/
theorem C1_formula (cdf : ℤ → ℤ → ℚ → ℚ) (X Y : Mat) (p n1 n2 : ℕ) (hp : 2 ≤ p)
    (hX : X.length = n1) (hY : Y.length = n2)
    (hXr : ∀ r ∈ X, r.length = p) (hYr : ∀ r ∈ Y, r.length = p)
    (h1 : p < n1) (h2 : p < n2)
    (B : Matrix (Fin p) (Fin p) ℚ) (hB : pooledCovF X Y p * B = 1) :
    TwoSampleT2Test cdf X Y = .ok ⟨specStatistic X Y p B,
      1 - cdf (p : ℤ) ((n1 : ℤ) + (n2 : ℤ) - (p : ℤ) - 1) (specStatistic X Y p B),
      (p : ℤ), (n1 : ℤ) + (n2 : ℤ) - (p : ℤ) - 1⟩ := by
  subst hX
  subst hY
  have hdet := det_ne_of_mul_eq_one p _ B hB
  rw [t2_eval cdf X Y p hp hXr hYr (by omega) (by omega)]
  rw [if_neg hdet]
  rw [qInv_eq_of_mul_eq_one p _ B hB]

theorem pooled_entry_scalar (a cy d : ℚ) (CY : Mat) (p : ℕ)
    (hCy2 : CY.length = p) (hCy3 : ∀ row ∈ CY, row.length = p)
    (j k : ℕ) (hj : j < p) (hk : k < p) :
    ((((CY.map fun row => row.map fun x => cy * x).map fun row => row.map fun y => a + y).map
        fun row => row.map fun x => d * x).getD j []).getD k 0
      = d * (a + cy * (CY.getD j []).getD k 0) := by
  have lY : (CY.getD j []).length = p := hCy3 _ (getD_mem_of_lt CY j (by omega) [])
  rw [getD_map _ _ j (by rw [List.length_map, List.length_map, hCy2]; omega) [] []]
  rw [getD_map _ _ j (by rw [List.length_map, hCy2]; omega) [] []]
  rw [getD_map _ _ j (by omega) [] []]
  rw [getD_map _ _ k (by rw [List.length_map, List.length_map, lY]; omega) 0 0]
  rw [getD_map _ _ k (by rw [List.length_map, lY]; omega) 0 0]
  rw [getD_map _ _ k (by omega) 0 0]

theorem pooled_entry_scalar_right (b cx d : ℚ) (CX : Mat) (p : ℕ)
    (hCx2 : CX.length = p) (hCx3 : ∀ row ∈ CX, row.length = p)
    (j k : ℕ) (hj : j < p) (hk : k < p) :
    ((((CX.map fun row => row.map fun x => cx * x).map fun row => row.map fun x => x + b).map
        fun row => row.map fun x => d * x).getD j []).getD k 0
      = d * (cx * (CX.getD j []).getD k 0 + b) := by
  have lX : (CX.getD j []).length = p := hCx3 _ (getD_mem_of_lt CX j (by omega) [])
  rw [getD_map _ _ j (by rw [List.length_map, List.length_map, hCx2]; omega) [] []]
  rw [getD_map _ _ j (by rw [List.length_map, hCx2]; omega) [] []]
  rw [getD_map _ _ j (by omega) [] []]
  rw [getD_map _ _ k (by rw [List.length_map, List.length_map, lX]; omega) 0 0]
  rw [getD_map _ _ k (by rw [List.length_map, lX]; omega) 0 0]
  rw [getD_map _ _ k (by omega) 0 0]

set_option maxHeartbeats 1000000 in
theorem t2_single_left (cdf : ℤ → ℤ → ℚ → ℚ) (X Y : Mat) (p : ℕ) (hp : 2 ≤ p)
    (hXr : ∀ r ∈ X, r.length = p) (hYr : ∀ r ∈ Y, r.length = p)
    (hx1 : X.length = 1) (hny : 2 ≤ Y.length)
    (hdet : (pooledCovF X Y p).det = 0) :
    TwoSampleT2Test cdf X Y = .error .singularMatrix := by
  have hXne : X ≠ [] := by intro hcon; rw [hcon] at hx1; simp at hx1
  have hYne : Y ≠ [] := by intro hcon; rw [hcon] at hny; simp at hny
  have hcX : ncols X = p := ncols_of_rect X p hXr hXne
  have hcY : ncols Y = p := ncols_of_rect Y p hYr hYne
  obtain ⟨hCy1, hCy2, hCy3, hCy4⟩ := npCov_eval Y p hp hYr (by simpa [nrows] using hny)
  have hCYne : covVV (transposeM Y) ≠ [] := by
    intro hcon
    rw [hcon] at hCy2
    simp at hCy2
    omega
  have hncY : ncols (covVV (transposeM Y)) = p := ncols_of_rect _ p hCy3 hCYne
  have hdelta : sub1d (mean0 X) (mean0 Y)
      = .ok (List.zipWith (· - ·) (mean0 X) (mean0 Y)) := by
    rw [sub1d, if_pos (by rw [mean0_length, mean0_length, hcX, hcY])]
  have hnpX : npCov X = .scalar (((covVV X).headD []).headD 0) := by
    rw [npCov]
    rw [if_pos (show nrows X = 1 from hx1)]
    rw [if_pos (show (covVV X).length = 1 from by rw [covVV, List.length_map]; exact hx1)]
  have hd : ((X.length : ℚ) + (Y.length : ℚ) - 2) ≠ 0 := by
    have h2 : (2 : ℚ) ≤ (Y.length : ℚ) := by exact_mod_cast hny
    rw [hx1]
    push_cast
    linarith
  have hd2 : ((X.length : ℚ) + (Y.length : ℚ)) ≠ 0 := by
    have h2 : (2 : ℚ) ≤ (Y.length : ℚ) := by exact_mod_cast hny
    have h1 : (0 : ℚ) ≤ (X.length : ℚ) := by positivity
    linarith
  have haddN : addN (smulN ((X.length : ℚ) - 1) (NDArr.scalar (((covVV X).headD []).headD 0)))
      (smulN ((Y.length : ℚ) - 1) (NDArr.mat (covVV (transposeM Y))))
      = .ok (.mat (((covVV (transposeM Y)).map fun row =>
          row.map fun x => ((Y.length : ℚ) - 1) * x).map fun row =>
            row.map fun y => ((X.length : ℚ) - 1) * (((covVV X).headD []).headD 0) + y)) := rfl
  have hdivN : divN (NDArr.mat (((covVV (transposeM Y)).map fun row =>
      row.map fun x => ((Y.length : ℚ) - 1) * x).map fun row =>
        row.map fun y => ((X.length : ℚ) - 1) * (((covVV X).headD []).headD 0) + y))
      ((X.length : ℚ) + (Y.length : ℚ) - 2)
      = .ok (.mat ((((covVV (transposeM Y)).map fun row =>
          row.map fun x => ((Y.length : ℚ) - 1) * x).map fun row =>
            row.map fun y => ((X.length : ℚ) - 1) * (((covVV X).headD []).headD 0) + y).map
              fun row => row.map fun x => ((X.length : ℚ) + (Y.length : ℚ) - 2)⁻¹ * x)) := by
    rw [divN, if_neg hd]
    rfl
  have hSPLlen : ((((covVV (transposeM Y)).map fun row =>
      row.map fun x => ((Y.length : ℚ) - 1) * x).map fun row =>
        row.map fun y => ((X.length : ℚ) - 1) * (((covVV X).headD []).headD 0) + y).map
          fun row => row.map fun x => ((X.length : ℚ) + (Y.length : ℚ) - 2)⁻¹ * x).length = p := by
    rw [List.length_map, List.length_map, List.length_map, hCy2]
  have hncSPL : ncols ((((covVV (transposeM Y)).map fun row =>
      row.map fun x => ((Y.length : ℚ) - 1) * x).map fun row =>
        row.map fun y => ((X.length : ℚ) - 1) * (((covVV X).headD []).headD 0) + y).map
          fun row => row.map fun x => ((X.length : ℚ) + (Y.length : ℚ) - 2)⁻¹ * x) = p := by
    rw [ncols_map_map, ncols_map_map, ncols_map_map, hncY]
  have htoSq : toSq p ((((covVV (transposeM Y)).map fun row =>
      row.map fun x => ((Y.length : ℚ) - 1) * x).map fun row =>
        row.map fun y => ((X.length : ℚ) - 1) * (((covVV X).headD []).headD 0) + y).map
          fun row => row.map fun x => ((X.length : ℚ) + (Y.length : ℚ) - 2)⁻¹ * x)
      = pooledCovF X Y p := by
    ext i j
    rw [toSq, Matrix.of_apply]
    rw [pooled_entry_scalar (((X.length : ℚ) - 1) * (((covVV X).headD []).headD 0))
      ((Y.length : ℚ) - 1) ((X.length : ℚ) + (Y.length : ℚ) - 2)⁻¹
      (covVV (transposeM Y)) p hCy2 hCy3 i j i.isLt j.isLt]
    rw [hCy4 i j i.isLt j.isLt]
    rw [pooledCovF]
    simp only [Matrix.smul_apply, Matrix.add_apply, smul_eq_mul, Fin.eta]
    have h0 : (X.length : ℚ) - 1 = 0 := by rw [hx1]; norm_num
    rw [h0]
    ring
  have hinv : npInv (NDArr.mat ((((covVV (transposeM Y)).map fun row =>
      row.map fun x => ((Y.length : ℚ) - 1) * x).map fun row =>
        row.map fun y => ((X.length : ℚ) - 1) * (((covVV X).headD []).headD 0) + y).map
          fun row => row.map fun x => ((X.length : ℚ) + (Y.length : ℚ) - 2)⁻¹ * x))
      = .error .singularMatrix := by
    simp only [npInv]
    rw [hSPLlen, if_pos hncSPL, htoSq, if_pos hdet]
  simp only [TwoSampleT2Test, nrows]
  rw [hdelta, okBind, hnpX, hCy1, haddN, okBind, hdivN, okBind, divQ, if_neg hd2, okBind,
    hinv, errBind]

set_option maxHeartbeats 1000000 in
theorem t2_single_right (cdf : ℤ → ℤ → ℚ → ℚ) (X Y : Mat) (p : ℕ) (hp : 2 ≤ p)
    (hXr : ∀ r ∈ X, r.length = p) (hYr : ∀ r ∈ Y, r.length = p)
    (hnx : 2 ≤ X.length) (hy1 : Y.length = 1)
    (hdet : (pooledCovF X Y p).det = 0) :
    TwoSampleT2Test cdf X Y = .error .singularMatrix := by
  have hXne : X ≠ [] := by intro hcon; rw [hcon] at hnx; simp at hnx
  have hYne : Y ≠ [] := by intro hcon; rw [hcon] at hy1; simp at hy1
  have hcX : ncols X = p := ncols_of_rect X p hXr hXne
  have hcY : ncols Y = p := ncols_of_rect Y p hYr hYne
  obtain ⟨hCx1, hCx2, hCx3, hCx4⟩ := npCov_eval X p hp hXr (by simpa [nrows] using hnx)
  have hCXne : covVV (transposeM X) ≠ [] := by
    intro hcon
    rw [hcon] at hCx2
    simp at hCx2
    omega
  have hncX : ncols (covVV (transposeM X)) = p := ncols_of_rect _ p hCx3 hCXne
  have hdelta : sub1d (mean0 X) (mean0 Y)
      = .ok (List.zipWith (· - ·) (mean0 X) (mean0 Y)) := by
    rw [sub1d, if_pos (by rw [mean0_length, mean0_length, hcX, hcY])]
  have hnpY : npCov Y = .scalar (((covVV Y).headD []).headD 0) := by
    rw [npCov]
    rw [if_pos (show nrows Y = 1 from hy1)]
    rw [if_pos (show (covVV Y).length = 1 from by rw [covVV, List.length_map]; exact hy1)]
  have hd : ((X.length : ℚ) + (Y.length : ℚ) - 2) ≠ 0 := by
    have h2 : (2 : ℚ) ≤ (X.length : ℚ) := by exact_mod_cast hnx
    rw [hy1]
    push_cast
    linarith
  have hd2 : ((X.length : ℚ) + (Y.length : ℚ)) ≠ 0 := by
    have h2 : (2 : ℚ) ≤ (X.length : ℚ) := by exact_mod_cast hnx
    have h1 : (0 : ℚ) ≤ (Y.length : ℚ) := by positivity
    linarith
  have haddN : addN (smulN ((X.length : ℚ) - 1) (NDArr.mat (covVV (transposeM X))))
      (smulN ((Y.length : ℚ) - 1) (NDArr.scalar (((covVV Y).headD []).headD 0)))
      = .ok (.mat (((covVV (transposeM X)).map fun row =>
          row.map fun x => ((X.length : ℚ) - 1) * x).map fun row =>
            row.map fun x => x + ((Y.length : ℚ) - 1) * (((covVV Y).headD []).headD 0))) := rfl
  have hdivN : divN (NDArr.mat (((covVV (transposeM X)).map fun row =>
      row.map fun x => ((X.length : ℚ) - 1) * x).map fun row =>
        row.map fun x => x + ((Y.length : ℚ) - 1) * (((covVV Y).headD []).headD 0)))
      ((X.length : ℚ) + (Y.length : ℚ) - 2)
      = .ok (.mat ((((covVV (transposeM X)).map fun row =>
          row.map fun x => ((X.length : ℚ) - 1) * x).map fun row =>
            row.map fun x => x + ((Y.length : ℚ) - 1) * (((covVV Y).headD []).headD 0)).map
              fun row => row.map fun x => ((X.length : ℚ) + (Y.length : ℚ) - 2)⁻¹ * x)) := by
    rw [divN, if_neg hd]
    rfl
  have hSPLlen : ((((covVV (transposeM X)).map fun row =>
      row.map fun x => ((X.length : ℚ) - 1) * x).map fun row =>
        row.map fun x => x + ((Y.length : ℚ) - 1) * (((covVV Y).headD []).headD 0)).map
          fun row => row.map fun x => ((X.length : ℚ) + (Y.length : ℚ) - 2)⁻¹ * x).length = p := by
    rw [List.length_map, List.length_map, List.length_map, hCx2]
  have hncSPL : ncols ((((covVV (transposeM X)).map fun row =>
      row.map fun x => ((X.length : ℚ) - 1) * x).map fun row =>
        row.map fun x => x + ((Y.length : ℚ) - 1) * (((covVV Y).headD []).headD 0)).map
          fun row => row.map fun x => ((X.length : ℚ) + (Y.length : ℚ) - 2)⁻¹ * x) = p := by
    rw [ncols_map_map, ncols_map_map, ncols_map_map, hncX]
  have htoSq : toSq p ((((covVV (transposeM X)).map fun row =>
      row.map fun x => ((X.length : ℚ) - 1) * x).map fun row =>
        row.map fun x => x + ((Y.length : ℚ) - 1) * (((covVV Y).headD []).headD 0)).map
          fun row => row.map fun x => ((X.length : ℚ) + (Y.length : ℚ) - 2)⁻¹ * x)
      = pooledCovF X Y p := by
    ext i j
    rw [toSq, Matrix.of_apply]
    rw [pooled_entry_scalar_right (((Y.length : ℚ) - 1) * (((covVV Y).headD []).headD 0))
      ((X.length : ℚ) - 1) ((X.length : ℚ) + (Y.length : ℚ) - 2)⁻¹
      (covVV (transposeM X)) p hCx2 hCx3 i j i.isLt j.isLt]
    rw [hCx4 i j i.isLt j.isLt]
    rw [pooledCovF]
    simp only [Matrix.smul_apply, Matrix.add_apply, smul_eq_mul, Fin.eta]
    have h0 : (Y.length : ℚ) - 1 = 0 := by rw [hy1]; norm_num
    rw [h0]
    ring
  have hinv : npInv (NDArr.mat ((((covVV (transposeM X)).map fun row =>
      row.map fun x => ((X.length : ℚ) - 1) * x).map fun row =>
        row.map fun x => x + ((Y.length : ℚ) - 1) * (((covVV Y).headD []).headD 0)).map
          fun row => row.map fun x => ((X.length : ℚ) + (Y.length : ℚ) - 2)⁻¹ * x))
      = .error .singularMatrix := by
    simp only [npInv]
    rw [hSPLlen, if_pos hncSPL, htoSq, if_pos hdet]
  simp only [TwoSampleT2Test, nrows]
  rw [hdelta, okBind, hCx1, hnpY, haddN, okBind, hdivN, okBind, divQ, if_neg hd2, okBind,
    hinv, errBind]

/-- C5 (amended): for non-empty equal-column-count inputs with p ≥ 2 columns
and at least three rows in total, a non-invertible pooled covariance
(vanishing determinant) makes the call fail with the SingularMatrix error;
this includes single-row samples, whose `np.cov` scalar is annihilated by
the n−1 = 0 weight.  The two exclusions are forced by the counterexample:
with p = 1 numpy's `np.cov` squeezes to a 0-dimensional array and
`np.linalg.inv` raises its 0-dimensional-array LinAlgError instead, and
with two single-row samples the pooling step divides by n1+n2−2 = 0,
producing non-finite values (and numpy subsequently raises the
0-dimensional-array LinAlgError), again not SingularMatrix. -/
theorem C5_singular (cdf : ℤ → ℤ → ℚ → ℚ) (X Y : Mat) (p : ℕ) (hp : 2 ≤ p)
    (hXr : ∀ r ∈ X, r.length = p) (hYr : ∀ r ∈ Y, r.length = p)
    (hnx : 1 ≤ X.length) (hny : 1 ≤ Y.length) (hsum : 3 ≤ X.length + Y.length)
    (hdet : (pooledCovF X Y p).det = 0) :
    TwoSampleT2Test cdf X Y = .error .singularMatrix := by
  by_cases hx1 : X.length = 1
  · exact t2_single_left cdf X Y p hp hXr hYr hx1 (by omega) hdet
  · by_cases hy1 : Y.length = 1
    · exact t2_single_right cdf X Y p hp hXr hYr (by omega) hy1 hdet
    · rw [t2_eval cdf X Y p hp hXr hYr (by omega) (by omega), if_pos hdet]

/-- C6 (amended): calling the test with both arguments the same sample X of
p ≥ 2 columns (p = 1 crashes; see the counterexample), more than p rows and
invertible sample covariance yields statistic exactly 0, and p-value exactly
1 whenever the CDF vanishes at 0 (as the F-distribution CDF does). -/
theorem C6_self_test (cdf : ℤ → ℤ → ℚ → ℚ) (X : Mat) (p n : ℕ) (hp : 2 ≤ p)
    (hX : X.length = n) (hXr : ∀ r ∈ X, r.length = p) (hn : p < n)
    (hdet : (sampleCovF X p).det ≠ 0)
    (hcdf : cdf (p : ℤ) ((n : ℤ) + (n : ℤ) - (p : ℤ) - 1) 0 = 0) :
    TwoSampleT2Test cdf X X = .ok ⟨0, 1, (p : ℤ), (n : ℤ) + (n : ℤ) - (p : ℤ) - 1⟩ := by
  subst hX
  have hn2 : (2 : ℚ) ≤ (X.length : ℚ) := by exact_mod_cast (by omega : 2 ≤ X.length)
  have hpool : pooledCovF X X p = sampleCovF X p := by
    ext i j
    rw [pooledCovF]
    simp only [Matrix.smul_apply, Matrix.add_apply, smul_eq_mul]
    have hzero : ((X.length : ℚ) + (X.length : ℚ) - 2) ≠ 0 := by linarith
    field_simp
    ring
  have hdz : deltaF X X p = 0 := funext fun j => sub_self _
  have hstat : specStatistic X X p (qInv p (sampleCovF X p)) = 0 := by
    rw [specStatistic, specT2, hdz]
    simp
  rw [t2_eval cdf X X p hp hXr hXr (by omega) (by omega), hpool, if_neg hdet, hstat, hcdf]
  norm_num

/-- C1 counterexample: a single-column instance of the claim's precondition
(n1 = n2 = 2 > p = 1, pooled covariance 2, invertible): `np.cov` squeezes
the covariances to 0-dimensional arrays, so `np.linalg.inv` raises its
0-dimensional-array LinAlgError and no (statistic, p_value) pair is
returned. -/
theorem C1_cx :
    (pooledCovF [[0],[2]] [[1],[3]] 1).det ≠ 0 ∧
      TwoSampleT2Test cdf0 [[0],[2]] [[1],[3]] = .error .linAlgNot2D := by
  constructor
  · rw [Matrix.det_fin_one]
    norm_num [pooledCovF, sampleCovF, colMeanF, Matrix.smul_apply, Matrix.add_apply,
      Matrix.of_apply]
  · norm_num [TwoSampleT2Test, sub1d, mean0, ncols, nrows, colL, meanL, npCov, covVV,
      transposeM, centerL, dotL, smulN, addN, divN, divQ, npInv, List.range_succ,
      okBind, errBind]

/-- C5 counterexample, forcing both exclusions of the amendment.  First,
two identical constant single-column samples (p = 1) have the non-invertible
pooled covariance 0, yet the failure is numpy's 0-dimensional-array
LinAlgError (np.cov squeezed the covariance to 0-d), not the SingularMatrix
error the claim demands.  Second, two single-row two-column samples
(n1 = n2 = 1) also have a vanishing pooled-covariance determinant, yet the
pooling step divides by n1 + n2 - 2 = 0 and the call fails before ever
reaching the inversion, again not with SingularMatrix. -/
theorem C5_cx :
    ((pooledCovF [[1],[1]] [[1],[1]] 1).det = 0 ∧
      TwoSampleT2Test cdf0 [[1],[1]] [[1],[1]] = .error .linAlgNot2D ∧
      TwoSampleT2Test cdf0 [[1],[1]] [[1],[1]] ≠ .error .singularMatrix) ∧
    ((pooledCovF [[1,2]] [[3,4]] 2).det = 0 ∧
      TwoSampleT2Test cdf0 [[1,2]] [[3,4]] = .error .divByZero ∧
      TwoSampleT2Test cdf0 [[1,2]] [[3,4]] ≠ .error .singularMatrix) := by
  refine ⟨⟨?_, ?_, ?_⟩, ?_, ?_, ?_⟩
  · rw [Matrix.det_fin_one]
    norm_num [pooledCovF, sampleCovF, colMeanF, Matrix.smul_apply, Matrix.add_apply,
      Matrix.of_apply]
  · norm_num [TwoSampleT2Test, sub1d, mean0, ncols, nrows, colL, meanL, npCov, covVV,
      transposeM, centerL, dotL, smulN, addN, divN, divQ, npInv, List.range_succ,
      okBind, errBind]
  · norm_num [TwoSampleT2Test, sub1d, mean0, ncols, nrows, colL, meanL, npCov, covVV,
      transposeM, centerL, dotL, smulN, addN, divN, divQ, npInv, List.range_succ,
      okBind, errBind]
    decide
  · rw [Matrix.det_fin_two]
    norm_num [pooledCovF, sampleCovF, colMeanF, Matrix.smul_apply, Matrix.add_apply,
      Matrix.of_apply]
  · norm_num [TwoSampleT2Test, sub1d, mean0, ncols, nrows, colL, meanL, npCov, covVV,
      transposeM, centerL, dotL, smulN, addN, divN, divQ, npInv, List.range_succ,
      okBind, errBind]
  · norm_num [TwoSampleT2Test, sub1d, mean0, ncols, nrows, colL, meanL, npCov, covVV,
      transposeM, centerL, dotL, smulN, addN, divN, divQ, npInv, List.range_succ,
      okBind, errBind]
    decide

/-- C6 counterexample: a valid single-column sample (n = 2 > p = 1, sample
variance 2, invertible) for which the self-test crashes in `np.linalg.inv`
instead of yielding statistic 0 and p-value 1. -/
theorem C6_cx :
    (sampleCovF [[0],[2]] 1).det ≠ 0 ∧
      TwoSampleT2Test cdf0 [[0],[2]] [[0],[2]] = .error .linAlgNot2D := by
  constructor
  · rw [Matrix.det_fin_one]
    norm_num [sampleCovF, colMeanF, Matrix.of_apply]
  · norm_num [TwoSampleT2Test, sub1d, mean0, ncols, nrows, colL, meanL, npCov, covVV,
      transposeM, centerL, dotL, smulN, addN, divN, divQ, npInv, List.range_succ,
      okBind, errBind]

/-- Concrete inverse of the pooled covariance used in the C1 witness. -/
def Bw : Matrix (Fin 2) (Fin 2) ℚ := Matrix.of ![![8/15, -(4/15)], ![-(4/15), 8/15]]

/-- C1 witness: a 3x2 / 3x2 instance with explicitly inverted pooled
covariance. -/
theorem C1_witness :
    (2 ≤ 2 ∧ ([[1,0],[0,1],[-1,-1]] : Mat).length = 3 ∧
      ([[2,0],[0,2],[-2,-2]] : Mat).length = 3 ∧
      (∀ r ∈ ([[1,0],[0,1],[-1,-1]] : Mat), r.length = 2) ∧
      (∀ r ∈ ([[2,0],[0,2],[-2,-2]] : Mat), r.length = 2) ∧ 2 < 3 ∧ 2 < 3 ∧
      pooledCovF [[1,0],[0,1],[-1,-1]] [[2,0],[0,2],[-2,-2]] 2 * Bw = 1) ∧
    TwoSampleT2Test cdf0 [[1,0],[0,1],[-1,-1]] [[2,0],[0,2],[-2,-2]]
      = .ok ⟨specStatistic [[1,0],[0,1],[-1,-1]] [[2,0],[0,2],[-2,-2]] 2 Bw,
        1 - cdf0 (2 : ℤ) ((3 : ℤ) + (3 : ℤ) - (2 : ℤ) - 1)
          (specStatistic [[1,0],[0,1],[-1,-1]] [[2,0],[0,2],[-2,-2]] 2 Bw),
        (2 : ℤ), (3 : ℤ) + (3 : ℤ) - (2 : ℤ) - 1⟩ := by
  have hB : pooledCovF [[1,0],[0,1],[-1,-1]] [[2,0],[0,2],[-2,-2]] 2 * Bw = 1 := by
    ext i j
    fin_cases i <;> fin_cases j <;>
      norm_num [pooledCovF, sampleCovF, colMeanF, Bw, Matrix.mul_apply, Fin.sum_univ_two,
        Matrix.smul_apply, Matrix.add_apply, Matrix.of_apply, Matrix.one_apply]
  exact ⟨⟨by omega, rfl, rfl, by decide, by decide, by omega, by omega, hB⟩,
    C1_formula cdf0 [[1,0],[0,1],[-1,-1]] [[2,0],[0,2],[-2,-2]] 2 3 3 (by omega) rfl rfl
      (by decide) (by decide) (by omega) (by omega) Bw hB⟩

/-- C5 witness: a single-row X against a 3x2 Y with perfectly collinear
columns: the pooled covariance equals Y's sample covariance (the single row
contributes zero weight), is singular, and the call fails with
SingularMatrix. -/
theorem C5_witness :
    (2 ≤ 2 ∧ (∀ r ∈ ([[1,2]] : Mat), r.length = 2) ∧
      (∀ r ∈ ([[1,2],[2,4],[3,6]] : Mat), r.length = 2) ∧
      1 ≤ ([[1,2]] : Mat).length ∧ 1 ≤ ([[1,2],[2,4],[3,6]] : Mat).length ∧
      3 ≤ ([[1,2]] : Mat).length + ([[1,2],[2,4],[3,6]] : Mat).length ∧
      (pooledCovF [[1,2]] [[1,2],[2,4],[3,6]] 2).det = 0) ∧
    TwoSampleT2Test cdf0 [[1,2]] [[1,2],[2,4],[3,6]]
      = .error .singularMatrix := by
  have hdet : (pooledCovF [[1,2]] [[1,2],[2,4],[3,6]] 2).det = 0 := by
    rw [Matrix.det_fin_two]
    norm_num [pooledCovF, sampleCovF, colMeanF, Matrix.smul_apply, Matrix.add_apply,
      Matrix.of_apply]
  exact ⟨⟨by omega, by decide, by decide, by decide, by decide, by decide, hdet⟩,
    C5_singular cdf0 [[1,2]] [[1,2],[2,4],[3,6]] 2 (by omega) (by decide)
      (by decide) (by decide) (by decide) (by decide) hdet⟩

/-- C6 witness: the self-test on a concrete 3x2 sample with invertible
covariance returns statistic 0 and p-value 1. -/
theorem C6_witness :
    (2 ≤ 2 ∧ ([[0,0],[1,0],[0,1]] : Mat).length = 3 ∧
      (∀ r ∈ ([[0,0],[1,0],[0,1]] : Mat), r.length = 2) ∧ 2 < 3 ∧
      (sampleCovF [[0,0],[1,0],[0,1]] 2).det ≠ 0 ∧
      cdf0 (2 : ℤ) ((3 : ℤ) + (3 : ℤ) - (2 : ℤ) - 1) 0 = 0) ∧
    TwoSampleT2Test cdf0 [[0,0],[1,0],[0,1]] [[0,0],[1,0],[0,1]]
      = .ok ⟨0, 1, (2 : ℤ), (3 : ℤ) + (3 : ℤ) - (2 : ℤ) - 1⟩ := by
  have hdet : (sampleCovF [[0,0],[1,0],[0,1]] 2).det ≠ 0 := by
    rw [Matrix.det_fin_two]
    norm_num [sampleCovF, colMeanF, Matrix.of_apply]
  exact ⟨⟨by omega, rfl, by decide, by omega, hdet, rfl⟩,
    C6_self_test cdf0 [[0,0],[1,0],[0,1]] 2 3 (by omega) rfl (by decide) (by omega) hdet rfl⟩

/-- C3 counterexample: X with 2 columns and Y with 1 column have different
column counts, yet numpy broadcasts the length-1 mean difference and the 0-d
covariance, and the test returns a result instead of failing with
DimensionMismatch. -/
theorem C3_cx :
    ncols ([[0,0],[1,0],[0,1],[1,1]] : Mat) ≠ ncols ([[0],[2]] : Mat) ∧
      TwoSampleT2Test cdf0 [[0,0],[1,0],[0,1],[1,1]] [[0],[2]]
        = .ok ⟨1/5, 1, 2, 3⟩ := by
  constructor
  · decide
  · norm_num [TwoSampleT2Test, sub1d, mean0, ncols, nrows, colL, meanL, npCov, covVV,
      transposeM, centerL, dotL, smulN, addN, divN, divQ, npInv_two, vecMatE, dotE, cdf0,
      List.range_succ, okBind, errBind, pureOk]

theorem c10_run :
    TwoSampleT2Test cdf0 [[0,0],[2,0],[1,3]] [[1,1],[3,1],[2,4]]
      = .ok ⟨3/4, 1, 2, 3⟩ := by
  norm_num [TwoSampleT2Test, sub1d, mean0, ncols, nrows, colL, meanL, npCov, covVV,
    transposeM, centerL, dotL, smulN, addN, divN, divQ, npInv_two, vecMatE, dotE, cdf0,
    List.range_succ, okBind, errBind, pureOk]

/-- C10 counterexample: Y and Y2 have the same row count and identical first
two columns (hence the same per-column means and covariance over the first
p = 2 columns), but while the run against Y reports degrees of freedom
(2, 3), the run against the wider Y2 fails on the mean-difference broadcast
and reports nothing, so the reported degrees of freedom are not independent
of Y's column count as claimed. -/
theorem C10_cx :
    nrows ([[1,1],[3,1],[2,4]] : Mat) = nrows ([[1,1,5],[3,1,5],[2,4,5]] : Mat) ∧
      ([[1,1,5],[3,1,5],[2,4,5]] : Mat).map (fun r => r.take 2) = [[1,1],[3,1],[2,4]] ∧
      TwoSampleT2Test cdf0 [[0,0],[2,0],[1,3]] [[1,1],[3,1],[2,4]]
        = .ok ⟨3/4, 1, 2, 3⟩ ∧
      TwoSampleT2Test cdf0 [[0,0],[2,0],[1,3]] [[1,1,5],[3,1,5],[2,4,5]]
        = .error .broadcastMismatch := by
  refine ⟨by decide, by decide, c10_run, ?_⟩
  norm_num [TwoSampleT2Test, sub1d, mean0, ncols, nrows, colL, meanL,
    List.range_succ, okBind, errBind]

/-- C10 witness: instantiation of the amended claim at a concrete successful
run. -/
theorem C10_witness :
    TwoSampleT2Test cdf0 [[0,0],[2,0],[1,3]] [[1,1],[3,1],[2,4]]
        = .ok ⟨3/4, 1, 2, 3⟩ ∧
      ((⟨3/4, 1, 2, 3⟩ : T2Result).df1 = (ncols [[0,0],[2,0],[1,3]] : ℤ) ∧
        (⟨3/4, 1, 2, 3⟩ : T2Result).df2 = (nrows ([[0,0],[2,0],[1,3]] : Mat) : ℤ)
          + (nrows ([[1,1],[3,1],[2,4]] : Mat) : ℤ) - (ncols [[0,0],[2,0],[1,3]] : ℤ) - 1) :=
  ⟨c10_run, C10_df_from_X cdf0 [[0,0],[2,0],[1,3]] [[1,1],[3,1],[2,4]] ⟨3/4, 1, 2, 3⟩ c10_run⟩
